import Mathlib

/-!
Verification of the session-store core of `cs-rs` (`src/main.rs`) via a
shallow embedding in Lean.

Modelling conventions:
* Rust `u64` sizes and line counts are `Nat` (with an explicit saturating
  add where the source uses `saturating_add`); `i64` timestamps are `Int`.
* Rust `String` is Lean `String`; since this Lean version's built-in
  `String.trim`/`toLower`/`splitOn` are defined by well-founded recursion
  on byte positions (and do not reduce in the kernel), the corresponding
  `str` operations are re-implemented here over `String.data` (`List Char`),
  restricted to ASCII whitespace/case, which is what the program's inputs
  use in practice.
* `HashMap<String, V>` is an association list with in-place-replacing
  insert; iteration order of a Rust `HashMap` is unspecified, and no claim
  below depends on it.
* The filesystem is an explicit environment `FS`.  File contents appear in
  the views the program actually takes of them: a history file is a list
  of lines each carrying its byte length, its blankness after trimming and
  its `serde_json` parse result (the JSON parser itself is external
  library code and is treated as an oracle); a transcript file is a list
  of lines carrying the per-source message parse results.  Directory-walk
  helpers (`find_file_by_session_id`, `build_recent_codex_file_index`, the
  projects-dir scan, `codex_file_info_from_session_file`,
  `claudecode_model_from_session_file`) are deterministic read-only
  functions of the filesystem and enter `FS` as abstract fields.
* Regex compilation and matching (`regex::Regex`) is external library
  code; it enters `search` as an environment `String → Option (String → Bool)`
  (compile failure = `none`, otherwise the `is_match` predicate).
-/

/-! ## Character/string helpers (ASCII models of the Rust `str` methods) -/

/-- ASCII whitespace, modelling `char::is_whitespace` on the ASCII range. -/
def isWSChar (c : Char) : Bool :=
  c == ' ' || c == '\t' || c == '\n' || c == '\r'

/-- Models `str::trim` (ASCII): drop whitespace from both ends. -/
def strTrim (s : String) : String :=
  ⟨((s.data.dropWhile isWSChar).reverse.dropWhile isWSChar).reverse⟩

/-- ASCII lower-casing of one character, modelling `u8::to_ascii_lowercase`. -/
def lowerChar (c : Char) : Char :=
  if 'A' ≤ c ∧ c ≤ 'Z' then Char.ofNat (c.toNat + 32) else c

/-- Models `str::to_lowercase` / `to_ascii_lowercase` on ASCII data. -/
def strToLower (s : String) : String :=
  ⟨s.data.map lowerChar⟩

/-- Boolean list-prefix test (used to model `str::starts_with` and
substring containment). -/
def listIsPref : List Char → List Char → Bool
  | [], _ => true
  | _ :: _, [] => false
  | a :: as, b :: bs => a == b && listIsPref as bs

/-- `q` occurs as a contiguous sublist of `t`. -/
def listInfix (q : List Char) : List Char → Bool
  | [] => q.isEmpty
  | c :: rest => listIsPref q (c :: rest) || listInfix q rest

/-- Models `str::starts_with`. -/
def strStartsWith (s p : String) : Bool :=
  listIsPref p.data s.data

/-- Models `str::contains` (substring search). -/
def strContainsSub (t q : String) : Bool :=
  listInfix q.data t.data

/-- Split a character list at every occurrence of `ch`. -/
def splitListOn (ch : Char) : List Char → List (List Char)
  | [] => [[]]
  | c :: rest =>
    if c == ch then [] :: splitListOn ch rest
    else
      match splitListOn ch rest with
      | [] => [[c]]
      | h :: t => (c :: h) :: t

/-- Models `str::lines` up to trailing-empty segments; the program always
trims the resulting lines and drops the empty ones before use, so the
difference (Rust drops a final empty segment and a trailing CR, `splitListOn`
keeps them) is not observable. -/
def strSplitLines (s : String) : List String :=
  (splitListOn '\n' s.data).map (fun l => ⟨l⟩)

/-- Models `str::split_whitespace().next().map(str::trim).unwrap_or_default()`:
the first whitespace-separated token (trimming a token is the identity). -/
def strFirstToken (s : String) : String :=
  ⟨(s.data.dropWhile isWSChar).takeWhile (fun c => !isWSChar c)⟩

/-- Models `[&str]::join("\n")`. -/
def joinNL : List String → String
  | [] => ""
  | [s] => s
  | s :: rest => s ++ "\n" ++ joinNL rest

/-! ## Sources, sessions and pure record normalizers -/

/-- The two session sources (`enum SessionSource`). -/
inductive SessionSource where
  | Claudecode
  | Codex
deriving DecidableEq, Repr

/-- `SessionSource::label` (main.rs:41-46). -/
def sourceLabel : SessionSource → String
  | .Claudecode => "claude code"
  | .Codex => "codex"

/-- `SessionSource::cache_key` (main.rs:55-60). -/
def cacheKey : SessionSource → String
  | .Claudecode => "claudecode"
  | .Codex => "codex"

/-- `SessionSource::internal_key` (main.rs:113-115):
`format!("{}::{session_id}", label)`, here with the label and the `::`
separator pre-concatenated. -/
def internalKey (source : SessionSource) (sid : String) : String :=
  (match source with
   | .Claudecode => "claude code::"
   | .Codex => "codex::") ++ sid

/-- The model's fixed home directory; paths only matter as keys into `FS`. -/
def homeDir : String := "~"

/-- `SessionSource::home_base` (main.rs:106-111). -/
def homeBase : SessionSource → String
  | .Claudecode => homeDir ++ "/.claude"
  | .Codex => homeDir ++ "/.codex"

/-- `Path::join` for the string-path model. -/
def pathJoin (a b : String) : String := a ++ "/" ++ b

/-- `SessionSource::history_file` (main.rs:90-92). -/
def historyFile (s : SessionSource) : String := pathJoin (homeBase s) "history.jsonl"

/-- `SessionSource::projects_dir` (main.rs:94-96). -/
def projectsDir (s : SessionSource) : String := pathJoin (homeBase s) "projects"

/-- `SessionSource::sessions_dir` (main.rs:98-100). -/
def sessionsDir (s : SessionSource) : String := pathJoin (homeBase s) "sessions"

/-- `SessionSource::archived_sessions_dir` (main.rs:102-104). -/
def archivedSessionsDir (s : SessionSource) : String :=
  pathJoin (homeBase s) "archived_sessions"

/-- `SessionStore::encode_path` (main.rs:539-541): `path.replace('/', "-")`. -/
def encodePath (p : String) : String :=
  ⟨p.data.map (fun c => if c == '/' then '-' else c)⟩

/-- `struct SessionInfo` (main.rs:118-129). -/
structure SessionInfo where
  source : SessionSource
  session_id : String
  display : String
  project : String
  timestamp : Int
  model : String
  reasoning_effort : String
  file_path : Option String
deriving DecidableEq, Repr

/-- `normalize_timestamp` (main.rs:362-368). -/
def normalizeTimestamp : Option Int → Int
  | some raw => if 0 < raw ∧ raw < 1000000000000 then raw * 1000 else raw
  | none => 0

/-- Character allow-set of `codex_model_candidate` (main.rs:386-388). -/
def isValidModelChar (c : Char) : Bool :=
  c.isAlphanum || c == '-' || c == '_' || c == '.' || c == ':' || c == '/'

/-- `codex_model_candidate` (main.rs:376-394). -/
def codexModelCandidate (model : String) : Option String :=
  let first := strFirstToken model
  if first = "" ∨ first = "<synthetic>" then none
  else if first.data.all isValidModelChar then some first
  else none

/-- Character allow-set of `codex_effort_candidate` (main.rs:403-405). -/
def isValidEffortChar (c : Char) : Bool :=
  c.isAlphanum || c == '-' || c == '_'

/-- `codex_effort_candidate` (main.rs:396-411). -/
def codexEffortCandidate (value : String) : Option String :=
  let trimmed := strTrim value
  if trimmed = "" then none
  else
    let normalized := strToLower trimmed
    if normalized.data.all isValidEffortChar then some normalized
    else none

/-! ## Association lists (model of `HashMap<String, V>`) -/

/-- `HashMap::get`. -/
def lookupAL {β : Type} : List (String × β) → String → Option β
  | [], _ => none
  | e :: rest, k => if e.1 = k then some e.2 else lookupAL rest k

/-- `HashMap::insert`: replace in place if the key is present, else append. -/
def insertAL {β : Type} : List (String × β) → String → β → List (String × β)
  | [], k, v => [(k, v)]
  | e :: rest, k, v => if e.1 = k then (k, v) :: rest else e :: insertAL rest k v

/-- The key list of an association list. -/
def keysAL {β : Type} (l : List (String × β)) : List String := l.map Prod.fst

/-- `HashMap::values`. -/
def valuesAL {β : Type} (l : List (String × β)) : List β := l.map Prod.snd

/-- `HashMap::retain` over the values. -/
def filterALVals {β : Type} (l : List (String × β)) (p : β → Bool) : List (String × β) :=
  l.filter (fun e => p e.2)

/-! ## History-file lines and the shared-history parser -/

/-- `struct HistoryEntry` (main.rs:191-206); the `sessionId`/`ts` serde
aliases are resolved by the line parser that produces this record. -/
structure HistoryEntry where
  session_id : Option String
  session_id_legacy : Option String
  timestamp : Option Int
  ts : Option Int
  display : String
  text : String
  project : String
deriving DecidableEq, Repr

/-- One physical line of a shared history file, as the program reads it:
its byte length (including the newline), whether it trims to empty, and
its `serde_json::from_str::<HistoryEntry>` parse result. -/
structure HistLine where
  byteLen : Nat
  blank : Bool
  parsed : Option HistoryEntry
deriving DecidableEq, Repr

/-- The lines visible after seeking to byte offset `off` and reading
line-wise (main.rs:636).  A seek landing strictly inside a line yields the
tail of that line first; a partial JSON fragment does not parse, so its
parse result is modelled as `none` (and it is not blank, the source line
was not). -/
def linesFromOffset : List HistLine → Nat → List HistLine
  | [], _ => []
  | l :: rest, off =>
    if off = 0 then l :: rest
    else if off < l.byteLen then
      { byteLen := l.byteLen - off, blank := false, parsed := none } :: rest
    else linesFromOffset rest (off - l.byteLen)

/-- The merge of one parsed history line into an already-seen record with
the same session id (main.rs:669-681): a strictly newer timestamp
overwrites `display`/`project` (and the timestamp); otherwise only empty
fields are filled from non-empty values and the timestamp is kept. -/
def mergeHistoryRecord (existing : SessionInfo) (display project : String)
    (timestamp : Int) : SessionInfo :=
  if existing.timestamp < timestamp then
    { existing with timestamp := timestamp, display := display, project := project }
  else
    { existing with
      display := if existing.display = "" ∧ display ≠ "" then display else existing.display,
      project := if existing.project = "" ∧ project ≠ "" then project else existing.project }

/-- The body of the `for line in reader.lines()` loop of
`parse_history_lines_into` (main.rs:641-699), acting on the pair
(sessions seen so far, lines counted so far). -/
def parseStep (source : SessionSource)
    (acc : List (String × SessionInfo) × Nat) (l : HistLine) :
    List (String × SessionInfo) × Nat :=
  if l.blank then acc
  else
    let n := acc.2 + 1
    match l.parsed with
    | none => (acc.1, n)
    | some entry =>
      match entry.session_id.or entry.session_id_legacy with
      | none => (acc.1, n)
      | some sid =>
        if sid = "" then (acc.1, n)
        else
          let display := if entry.display ≠ "" then entry.display else entry.text
          let project := entry.project
          let timestamp := normalizeTimestamp (entry.timestamp.or entry.ts)
          let key := internalKey source sid
          match lookupAL acc.1 key with
          | some existing =>
            (insertAL acc.1 key (mergeHistoryRecord existing display project timestamp), n)
          | none =>
            (insertAL acc.1 key
              { source := source, session_id := sid, display := display,
                project := project, timestamp := timestamp, model := "",
                reasoning_effort := "", file_path := none }, n)

/-- `SessionStore::parse_history_lines_into` (main.rs:624-701) after the
file has been opened and the seek performed: fold the line loop over the
visible lines, returning the updated seen-map and the number of non-blank
lines parsed. -/
def parseHistoryLinesInto (source : SessionSource) (lines : List HistLine)
    (seen : List (String × SessionInfo)) : List (String × SessionInfo) × Nat :=
  lines.foldl (parseStep source) (seen, 0)

/-! ## The persisted cache, the filesystem environment and the store -/

/-- `struct CachedHistory` (main.rs:138-145). -/
structure CachedHistory where
  file_size : Nat
  file_modified_ms : Int
  line_count : Nat
  sessions : List SessionInfo
deriving DecidableEq, Repr

/-- `struct CachedCodexSession` (main.rs:147-156). -/
structure CachedCodexSession where
  file_path : String
  file_size : Nat
  file_modified_ms : Int
  cwd : Option String
  timestamp_ms : Option Int
  model : Option String
  reasoning_effort : Option String
deriving DecidableEq, Repr

/-- The all-default `CachedCodexSession` (`Default` derive). -/
def defaultCachedCodexSession : CachedCodexSession :=
  { file_path := "", file_size := 0, file_modified_ms := 0, cwd := none,
    timestamp_ms := none, model := none, reasoning_effort := none }

/-- `struct SessionCache` (main.rs:131-136). -/
structure SessionCache where
  version : Nat
  histories : List (String × CachedHistory)
  codexSessions : List (String × CachedCodexSession)
deriving DecidableEq, Repr

/-- `struct SearchTextCacheEntry` (main.rs:158-163). -/
structure SearchTextCacheEntry where
  file_size : Nat
  file_modified_ms : Int
  text : String
deriving DecidableEq, Repr

/-- `struct CodexSessionFileInfo` (main.rs:216-222). -/
structure CodexFileInfo where
  cwd : Option String
  timestamp_ms : Option Int
  model : Option String
  reasoning_effort : Option String
deriving DecidableEq, Repr

/-- One content block of a message (`message.content[i]`): its `type` tag
and its optional `text` field. -/
structure Block where
  btype : String
  btext : Option String
deriving DecidableEq, Repr

/-- The shape of a message's `content` JSON value (main.rs:279-288). -/
inductive MsgContent where
  | str (s : String)
  | blocks (bs : List Block)
  | other
deriving DecidableEq, Repr

/-- `struct Message` (main.rs:240-248), reduced to the fields the store
reads: the line's `type`, the API-error flag, and the `message.content`
value. -/
structure Message where
  msg_type : String
  is_api_error : Bool
  content : MsgContent
deriving DecidableEq, Repr

/-- One physical line of a transcript file with both per-source parse
views: the Claude-Code view (`serde_json::from_str::<RawMessage>`,
main.rs:1564-1567) and the Codex view (`parse_codex_message`,
main.rs:301-346); `none` = that parser rejects the line. -/
structure MsgLine where
  blank : Bool
  ccMsg : Option Message
  codexMsg : Option Message
deriving DecidableEq, Repr

/-- What the filesystem holds at a readable path: `metadata.len()`,
`metadata.modified()` in epoch ms (`none` when the mtime is unreadable,
main.rs:604-610), and the history-line and transcript-line views of the
content. -/
structure FileData where
  size : Nat
  mtimeMs : Option Int
  histLines : List HistLine
  msgLines : List MsgLine
deriving DecidableEq, Repr

/-- The filesystem environment.  `files p = none` models both a missing
file and any metadata/read error (the program treats these identically).
The last five fields are the read-only directory-walk/scan helpers of the
source, abstracted as functions of the filesystem (see the header). -/
structure FS where
  pathExists : String → Bool
  isFile : String → Bool
  files : String → Option FileData
  codexIndexFind : String → Option String
  codexFileInfo : String → String → Option CodexFileInfo
  walkFind : String → String → Option String
  projectsScanFind : String → String → Option String
  ccModelFromFile : String → Option String

/-- `struct SessionStore` (main.rs:520-526). -/
structure Store where
  sessions : List (String × SessionInfo)
  loaded : Bool
  cache : SessionCache
  cacheDirty : Bool
  searchTextCache : List (String × SearchTextCacheEntry)
deriving DecidableEq, Repr

/-- `u64::saturating_add`. -/
def u64SatAdd (a b : Nat) : Nat := min (a + b) (2 ^ 64 - 1)

/-- Insert a list of cached sessions into a seen-map under their source
keys (the `for session in cached.sessions` loops of
`load_sessions_for_source`, main.rs:708-712, 719-724, 736-739, 744-746). -/
def insertSessions (source : SessionSource) (sessions : List SessionInfo)
    (seen : List (String × SessionInfo)) : List (String × SessionInfo) :=
  sessions.foldl (fun m s => insertAL m (internalKey source s.session_id) s) seen

/-- Record a new `CachedHistory` under `k` and mark the cache dirty
(main.rs:753-762, 768-777). -/
def writeHistory (st : Store) (k : String) (e : CachedHistory) : Store :=
  let newCache := { st.cache with histories := insertAL st.cache.histories k e }
  { st with cache := newCache, cacheDirty := true }

/-- The full-re-parse arm of `load_sessions_for_source` (main.rs:767-778):
parse every line from offset zero into an empty seen-map and overwrite the
cache entry. -/
def fullReparse (st : Store) (source : SessionSource) (fd : FileData)
    (k : String) : List (String × SessionInfo) × Store :=
  let r := parseHistoryLinesInto source fd.histLines []
  (r.1, writeHistory st k
    { file_size := fd.size, file_modified_ms := fd.mtimeMs.getD 0,
      line_count := r.2, sessions := valuesAL r.1 })

/-- The missing/unreadable-file fallback of `load_sessions_for_source`
(main.rs:707-714, 716-726): return the cached sessions, if any. -/
def cachedFallback (st : Store) (k : String) (source : SessionSource) :
    List (String × SessionInfo) :=
  match lookupAL st.cache.histories k with
  | some c => insertSessions source c.sessions []
  | none => []

/-- `SessionStore::load_sessions_for_source` (main.rs:703-779). -/
def loadSessionsForSource (fs : FS) (st : Store) (source : SessionSource) :
    List (String × SessionInfo) × Store :=
  let path := historyFile source
  let k := cacheKey source
  if fs.pathExists path = false then (cachedFallback st k source, st)
  else
    match fs.files path with
    | none => (cachedFallback st k source, st)
    | some fd =>
      let fileSize := fd.size
      let fileModifiedMs := fd.mtimeMs.getD 0
      match lookupAL st.cache.histories k with
      | some c =>
        if c.file_size = fileSize ∧ c.file_modified_ms = fileModifiedMs ∧
            (c.file_size = 0 ∨ c.sessions.length ≤ c.line_count) then
          (insertSessions source c.sessions [], st)
        else if c.file_size < fileSize ∧ c.file_modified_ms ≤ fileModifiedMs then
          let seen0 := insertSessions source c.sessions []
          let r := parseHistoryLinesInto source
            (linesFromOffset fd.histLines c.file_size) seen0
          (r.1, writeHistory st k
            { file_size := fileSize, file_modified_ms := fileModifiedMs,
              line_count := u64SatAdd c.line_count r.2, sessions := valuesAL r.1 })
        else fullReparse st source fd k
      | none => fullReparse st source fd k

/-- `SessionStore::is_resumable_session` (main.rs:781-791). -/
def isResumableSession (fs : FS) (session : SessionInfo) : Bool :=
  if strTrim session.project = "" then false
  else
    match session.file_path with
    | some p => fs.isFile p
    | none => false

/-! ## Codex cache helpers and the load-time enrichment pass -/

/-- `SessionStore::codex_session_file_changed` (main.rs:793-803). -/
def codexSessionFileChanged (fs : FS) (st : Store) (sid : String) (p : String) : Bool :=
  match lookupAL st.cache.codexSessions sid with
  | none => true
  | some cached =>
    match fs.files p with
    | none => false
    | some md =>
      md.size ≠ cached.file_size || md.mtimeMs.getD 0 ≠ cached.file_modified_ms

/-- `SessionStore::clear_codex_cache_path` (main.rs:805-812). -/
def clearCodexCachePath (st : Store) (sid : String) : Store :=
  match lookupAL st.cache.codexSessions sid with
  | none => st
  | some entry =>
    if entry.file_path = "" then st
    else
      let newCache := { st.cache with
        codexSessions := insertAL st.cache.codexSessions sid { entry with file_path := "" } }
      { st with cache := newCache, cacheDirty := true }

/-- `SessionStore::apply_cached_codex_metadata` (main.rs:854-882). -/
def applyCachedCodexMetadata (cache : SessionCache) (s : SessionInfo) : SessionInfo :=
  match lookupAL cache.codexSessions s.session_id with
  | none => s
  | some cached =>
    let s := if cached.file_path ≠ "" then { s with file_path := some cached.file_path } else s
    let s := if s.project = "" then
        match cached.cwd with
        | some cwd => if cwd ≠ "" then { s with project := cwd } else s
        | none => s
      else s
    let s := if s.timestamp = 0 then { s with timestamp := cached.timestamp_ms.getD 0 } else s
    let s := if s.model = "" then
        match cached.model with
        | some m => { s with model := m }
        | none => s
      else s
    if s.reasoning_effort = "" then
      match cached.reasoning_effort with
      | some r => { s with reasoning_effort := r }
      | none => s
    else s

/-- `SessionStore::update_codex_cache` (main.rs:884-926). -/
def updateCodexCache (fs : FS) (st : Store) (sid : String) (p : String)
    (info : Option CodexFileInfo) : Store :=
  let fileSize := match fs.files p with | some md => md.size | none => 0
  let fileModifiedMs := match fs.files p with
    | some md => md.mtimeMs.getD 0
    | none => 0
  let entry := (lookupAL st.cache.codexSessions sid).getD defaultCachedCodexSession
  let entry := { entry with
    file_path := p
    file_size := fileSize
    file_modified_ms := fileModifiedMs }
  let entry := match info with
    | none => entry
    | some info =>
      let entry := match info.cwd with
        | some cwd => if cwd ≠ "" then { entry with cwd := some cwd } else entry
        | none => entry
      let entry := if info.timestamp_ms.isSome then
          { entry with timestamp_ms := info.timestamp_ms } else entry
      let entry := match info.model with
        | some m => { entry with model := some m }
        | none => entry
      match info.reasoning_effort with
      | some r => { entry with reasoning_effort := some r }
      | none => entry
  let newCache := { st.cache with codexSessions := insertAL st.cache.codexSessions sid entry }
  { st with cache := newCache, cacheDirty := true }

/-- The Claude-Code candidate transcript path of a session
(main.rs:944-949): `projects_dir/encode(project)/{session_id}.jsonl`. -/
def ccCandidatePath (s : SessionInfo) : String :=
  pathJoin (pathJoin (projectsDir .Claudecode) (encodePath s.project)) (s.session_id ++ ".jsonl")

/-- The Claude-Code arm of the `load()` enrichment loop (main.rs:943-954). -/
def ccResolve (fs : FS) (s : SessionInfo) : SessionInfo :=
  if s.project ≠ "" ∧ fs.pathExists (ccCandidatePath s) then
    { s with file_path := some (ccCandidatePath s) }
  else s

/-- The Codex arm of the `load()` enrichment loop (main.rs:955-1011):
cached metadata, dangling-path clearing, and the fast enrich via the
recent-file index (`build_recent_codex_file_index(21)` is the abstract
`fs.codexIndexFind`). -/
def codexLoadEnrich (fs : FS) (st : Store) (s0 : SessionInfo) : SessionInfo × Store :=
  let s := applyCachedCodexMetadata st.cache s0
  let cleared : SessionInfo × Store :=
    match s.file_path with
    | some p =>
      if fs.isFile p then (s, st)
      else ({ s with file_path := none }, clearCodexCachePath st s.session_id)
    | none => (s, st)
  let s := cleared.1
  let st := cleared.2
  if s.file_path = none ∨ s.project = "" ∨ s.timestamp = 0 then
    match fs.codexIndexFind s.session_id with
    | none => (s, st)
    | some p =>
      let s := if s.file_path = none then { s with file_path := some p } else s
      if s.project = "" ∨ s.timestamp = 0 then
        match fs.codexFileInfo p s.session_id with
        | some info =>
          let s := if s.project = "" then
              match info.cwd with
              | some cwd => if cwd ≠ "" then { s with project := cwd } else s
              | none => s
            else s
          let s := if s.timestamp = 0 then { s with timestamp := info.timestamp_ms.getD 0 } else s
          let s := if s.model = "" then
              match info.model with
              | some m => { s with model := m }
              | none => s
            else s
          let s := if s.reasoning_effort = "" then
              match info.reasoning_effort with
              | some r => { s with reasoning_effort := r }
              | none => s
            else s
          (s, updateCodexCache fs st s.session_id p (some info))
        | none => (s, updateCodexCache fs st s.session_id p none)
      else (s, updateCodexCache fs st s.session_id p none)
  else (s, st)

/-- One entry of the `for session in seen.values_mut()` loop of `load()`
(main.rs:941-1017), including the final display fallback. -/
def loadEnrichEntry (fs : FS) (st : Store) (s : SessionInfo) : SessionInfo × Store :=
  let r : SessionInfo × Store :=
    match s.source with
    | .Claudecode => (ccResolve fs s, st)
    | .Codex => codexLoadEnrich fs st s
  (if r.1.display = "" then { r.1 with display := r.1.project } else r.1, r.2)

/-- The whole enrichment pass of `load()` over the seen-map's entries. -/
def loadEnrichPhase (fs : FS) (entries : List (String × SessionInfo)) (st : Store) :
    List (String × SessionInfo) × Store :=
  entries.foldl
    (fun acc e =>
      let r := loadEnrichEntry fs acc.2 e.2
      (acc.1 ++ [(e.1, r.1)], r.2))
    ([], st)

/-- The source-gathering loop of `load()` (main.rs:935-939). -/
def gatherSources (fs : FS) : List SessionSource →
    List (String × SessionInfo) × Store → List (String × SessionInfo) × Store
  | [], acc => acc
  | source :: rest, acc =>
    let r := loadSessionsForSource fs acc.2 source
    gatherSources fs rest (r.1.foldl (fun m e => insertAL m e.1 e.2) acc.1, r.2)

/-- The body of `SessionStore::load` (main.rs:933-1025) once the `loaded`
flag has been found unset: gather both sources, enrich, filter by the
noise/resumability condition (main.rs:1019-1022), set `loaded` and flush
the cache (`save_cache_if_dirty` writes the file and clears the flag). -/
def loadCore (fs : FS) (st : Store) : Store :=
  let g := gatherSources fs [SessionSource.Claudecode, SessionSource.Codex] ([], st)
  let e := loadEnrichPhase fs g.1 g.2
  let kept := filterALVals e.1
    (fun s => !(s.display = "" ∧ s.timestamp = 0 : Bool) && isResumableSession fs s)
  { sessions := kept, loaded := true, cache := e.2.cache, cacheDirty := false,
    searchTextCache := e.2.searchTextCache }

/-- `SessionStore::load` (main.rs:928-1026). -/
def load (fs : FS) (st : Store) : Store :=
  if st.loaded then st else loadCore fs st

/-! ## Access-time enrichment, lookup and search -/

/-- `SessionStore::find_session_file` (main.rs:1171-1218).
`fs.walkFind` abstracts `find_file_by_session_id(dir, sid, 4)` and
`fs.projectsScanFind` the projects-directory scan of main.rs:1202-1217. -/
def findSessionFile (fs : FS) (source : SessionSource) (sid : String)
    (project : String) : Option String :=
  let fromProject : Option String :=
    if project ≠ "" then
      let cand := pathJoin (pathJoin (projectsDir source) (encodePath project))
        (sid ++ ".jsonl")
      if fs.pathExists cand then some cand else none
    else none
  match fromProject with
  | some c => some c
  | none =>
    let fromWalk : Option String :=
      if source = .Codex then
        match fs.walkFind (sessionsDir source) sid with
        | some f => some f
        | none => fs.walkFind (archivedSessionsDir source) sid
      else none
    match fromWalk with
    | some f => some f
    | none =>
      if fs.pathExists (projectsDir source) then
        fs.projectsScanFind (projectsDir source) sid
      else none

/-- The session/changed/store triple threaded through
`enrich_session_for_access`. -/
abbrev EnrichState := SessionInfo × Bool × Store

/-- Step 1 of `enrich_session_for_access` (main.rs:1036-1044): clear a
dangling `file_path`. -/
def enrichStep1 (fs : FS) (source : SessionSource) (sid : String)
    (x : EnrichState) : EnrichState :=
  match x.1.file_path with
  | some p =>
    if fs.isFile p then x
    else
      ({ x.1 with file_path := none }, true,
        if source = .Codex then clearCodexCachePath x.2.2 sid else x.2.2)
  | none => x

/-- Step 2 (main.rs:1046-1054): locate a missing transcript file. -/
def enrichStep2 (fs : FS) (source : SessionSource) (sid : String)
    (x : EnrichState) : EnrichState :=
  if x.1.file_path = none then
    match findSessionFile fs source sid x.1.project with
    | some p =>
      ({ x.1 with file_path := some p }, true,
        if source = .Codex then updateCodexCache fs x.2.2 sid p none else x.2.2)
    | none => x
  else x

/-- The field updates applied from a `CodexSessionFileInfo` in step 3
(main.rs:1066-1092), returning the new session and changed flag. -/
def enrichApplyCodexInfo (fileChanged : Bool) (info : CodexFileInfo)
    (s : SessionInfo) (changed : Bool) : SessionInfo × Bool :=
  let u1 : SessionInfo × Bool :=
    if s.project = "" then
      match info.cwd with
      | some cwd => if cwd ≠ "" then ({ s with project := cwd }, true) else (s, changed)
      | none => (s, changed)
    else (s, changed)
  let u2 : SessionInfo × Bool :=
    if u1.1.timestamp = 0 then
      ({ u1.1 with timestamp := info.timestamp_ms.getD 0 }, true)
    else u1
  let u3 : SessionInfo × Bool :=
    match info.model with
    | some m =>
      if (fileChanged ∨ u2.1.model = "") ∧ u2.1.model ≠ m then
        ({ u2.1 with model := m }, true)
      else u2
    | none => u2
  match info.reasoning_effort with
  | some r =>
    if (fileChanged ∨ u3.1.reasoning_effort = "") ∧ u3.1.reasoning_effort ≠ r then
      ({ u3.1 with reasoning_effort := r }, true)
    else u3
  | none => u3

/-- Step 3 (main.rs:1056-1097): Codex transcript metadata refresh. -/
def enrichStep3 (fs : FS) (source : SessionSource) (sid : String)
    (x : EnrichState) : EnrichState :=
  if source = .Codex then
    match x.1.file_path with
    | some p =>
      let fileChanged := codexSessionFileChanged fs x.2.2 sid p
      let needsMeta := fileChanged ∨ x.1.project = "" ∨ x.1.timestamp = 0 ∨
        x.1.model = "" ∨ x.1.reasoning_effort = ""
      if needsMeta then
        match fs.codexFileInfo p sid with
        | some info =>
          let u := enrichApplyCodexInfo fileChanged info x.1 x.2.1
          (u.1, u.2, updateCodexCache fs x.2.2 sid p (some info))
        | none => x
      else x
    | none => x
  else x

/-- Step 4 (main.rs:1099-1108): Claude-Code model refresh
(`claudecode_model_from_session_file` is the abstract `fs.ccModelFromFile`). -/
def enrichStep4 (fs : FS) (source : SessionSource) (x : EnrichState) : EnrichState :=
  if source = .Claudecode then
    match x.1.file_path with
    | some p =>
      match fs.ccModelFromFile p with
      | some m => if x.1.model ≠ m then ({ x.1 with model := m }, true, x.2.2) else x
      | none => x
    | none => x
  else x

/-- Step 5 (main.rs:1110-1113): display fallback. -/
def enrichStep5 (x : EnrichState) : EnrichState :=
  if x.1.display = "" then ({ x.1 with display := x.1.project }, true, x.2.2) else x

/-- Replace the first session with the given id (the `iter_mut().find`
write-back of main.rs:834-849). -/
def replaceFirstSession : List SessionInfo → String → SessionInfo → List SessionInfo
  | [], _, _ => []
  | c :: rest, sid, s =>
    if c.session_id = sid then s :: rest else c :: replaceFirstSession rest sid s

/-- `SessionStore::update_history_cache_session` (main.rs:830-852). -/
def updateHistoryCacheSession (st : Store) (s : SessionInfo) : Store :=
  match lookupAL st.cache.histories (cacheKey s.source) with
  | none => st
  | some history =>
    if (history.sessions.find? (fun c => c.session_id = s.session_id)).any
        (fun c => c.display ≠ s.display ∨ c.project ≠ s.project ∨
          c.timestamp ≠ s.timestamp ∨ c.model ≠ s.model ∨
          c.reasoning_effort ≠ s.reasoning_effort ∨ c.file_path ≠ s.file_path) then
      let replaced := replaceFirstSession history.sessions s.session_id s
      let newCache := { st.cache with
        histories := insertAL st.cache.histories (cacheKey s.source)
          { history with sessions := replaced } }
      { st with cache := newCache, cacheDirty := true }
    else st

/-- The post-lookup body of `enrich_session_for_access`. -/
def enrichCore (fs : FS) (source : SessionSource) (sid : String)
    (s0 : SessionInfo) (st : Store) : EnrichState :=
  enrichStep5 (enrichStep4 fs source
    (enrichStep3 fs source sid (enrichStep2 fs source sid
      (enrichStep1 fs source sid (s0, false, st)))))

/-- `SessionStore::enrich_session_for_access` (main.rs:1028-1119). -/
def enrichSessionForAccess (fs : FS) (st0 : Store) (source : SessionSource)
    (sid : String) : Store :=
  let st := load fs st0
  let key := internalKey source sid
  match lookupAL st.sessions key with
  | none => st
  | some s0 =>
    let r := enrichCore fs source sid s0 st
    if r.2.1 then
      let st1 := updateHistoryCacheSession r.2.2 r.1
      { st1 with sessions := insertAL st1.sessions key r.1 }
    else r.2.2

/-- `save_cache_if_dirty` (main.rs:578-584): the write itself is external
I/O; in the model only the dirty flag is cleared. -/
def saveCacheIfDirty (st : Store) : Store :=
  { st with cacheDirty := false }

/-- `SessionStore::most_recent_model_for_source` (main.rs:814-828);
`max_by_key` keeps the last maximal element. -/
def mostRecentModelForSource (st : Store) (source : SessionSource)
    (excludeSid : String) : Option String :=
  ((valuesAL st.sessions).filter
      (fun s => s.source = source ∧ s.session_id ≠ excludeSid ∧ strTrim s.model ≠ "")).foldl
    (fun acc s =>
      match acc with
      | none => some s
      | some m => if m.timestamp ≤ s.timestamp then some s else some m)
    none
  |>.map (fun s => s.model)

/-- `SessionStore::get_exact` (main.rs:1128-1142). -/
def getExact (fs : FS) (st : Store) (source : SessionSource) (sid : String) :
    Option SessionInfo × Store :=
  let st1 := load fs st
  let st2 := enrichSessionForAccess fs st1 source sid
  let st3 := saveCacheIfDirty st2
  match lookupAL st3.sessions (internalKey source sid) with
  | none => (none, st3)
  | some s =>
    if strTrim s.model = "" then
      match mostRecentModelForSource st3 source s.session_id with
      | some m => (some { s with model := m }, st3)
      | none => (some s, st3)
    else (some s, st3)

/-- `SessionStore::get` (main.rs:1144-1169); named `getSession` because
plain `get` collides with `MonadState.get` in scope. -/
def getSession (fs : FS) (st0 : Store) (sid : String) : Option SessionInfo × Store :=
  let st := load fs st0
  let vals := valuesAL st.sessions
  let exactMatches := vals.filter (fun s => s.session_id = sid)
  let idMatches := vals.filter (fun s => s.session_id ≠ sid ∧ strStartsWith s.session_id sid)
  match exactMatches with
  | [s] => getExact fs st s.source s.session_id
  | [] =>
    match idMatches with
    | [s] => getExact fs st s.source s.session_id
    | _ => (none, st)
  | _ => (none, st)

/-! ## Transcript messages and full-text search -/

/-- `INTERNAL_TYPES` (main.rs:28). -/
def internalTypes : List String := ["file-history-snapshot", "progress", "queue-operation"]

/-- `Message::content_blocks` (main.rs:279-288). -/
def contentBlocks (m : Message) : List Block :=
  match m.content with
  | .str s => [{ btype := "text", btext := some s }]
  | .blocks bs => bs
  | .other => []

/-- `block_text` (main.rs:348-360). -/
def blockText (b : Block) : Option String :=
  if b.btype = "text" ∨ b.btype = "input_text" ∨ b.btype = "output_text" then b.btext
  else none

/-- `Message::text` (main.rs:290-298). -/
def messageText (m : Message) : String :=
  strTrim (joinNL ((contentBlocks m).filterMap blockText))

/-- `SessionStore::read_messages` (main.rs:1546-1580). -/
def readMessages (fs : FS) (session : SessionInfo) (skipInternal : Bool) :
    List Message :=
  match session.file_path with
  | none => []
  | some p =>
    match fs.files p with
    | none => []
    | some fd =>
      fd.msgLines.filterMap (fun l =>
        if l.blank then none
        else
          match (match session.source with
                 | .Claudecode => l.ccMsg
                 | .Codex => l.codexMsg) with
          | none => none
          | some m =>
            if skipInternal ∧ m.msg_type ∈ internalTypes then none else some m)

/-- `SessionStore::search_text_signature` (main.rs:612-622). -/
def searchTextSignature (fs : FS) (filePath : Option String) : Nat × Int :=
  match filePath with
  | none => (0, 0)
  | some p =>
    match fs.files p with
    | none => (0, 0)
    | some md => (md.size, md.mtimeMs.getD 0)

/-- The lowercased concatenated text computed on a search-text cache miss
(main.rs:1599-1606). -/
def computeSearchText (fs : FS) (session : SessionInfo) : String :=
  strToLower (joinNL (((readMessages fs session true).map messageText).filter
    (fun t => t ≠ "")))

/-- `SessionStore::session_contains_full_text` (main.rs:1582-1622). -/
def sessionContainsFullText (fs : FS) (st : Store) (session : SessionInfo)
    (query : String) : Bool × Store :=
  if query = "" then (true, st)
  else
    let key := internalKey session.source session.session_id
    let sig := searchTextSignature fs session.file_path
    let missOrStale : Bool :=
      match lookupAL st.searchTextCache key with
      | some cached => cached.file_size ≠ sig.1 ∨ cached.file_modified_ms ≠ sig.2
      | none => true
    let newEntry : SearchTextCacheEntry :=
      { file_size := sig.1, file_modified_ms := sig.2,
        text := computeSearchText fs session }
    let st1 :=
      if missOrStale then
        { st with searchTextCache := insertAL st.searchTextCache key newEntry }
      else st
    (match lookupAL st1.searchTextCache key with
     | some cached => strContainsSub cached.text query
     | none => false, st1)

/-- Insert into a timestamp-descending list, before the first strictly
older element (stable, as Rust's `sort_by` is). -/
def insertTsDesc (s : SessionInfo) : List SessionInfo → List SessionInfo
  | [] => [s]
  | t :: ts => if t.timestamp ≤ s.timestamp then s :: t :: ts else t :: insertTsDesc s ts

/-- The `out.sort_by(|a, b| b.timestamp.cmp(&a.timestamp))` of `all()`
(main.rs:1124), as a stable insertion sort. -/
def sortTsDesc : List SessionInfo → List SessionInfo
  | [] => []
  | s :: rest => insertTsDesc s (sortTsDesc rest)

/-- `SessionStore::all` (main.rs:1121-1126). -/
def allOp (fs : FS) (st0 : Store) : List SessionInfo × Store :=
  let st := load fs st0
  (sortTsDesc (valuesAL st.sessions), st)

/-- One search result triple (session, message, matched line). -/
abbrev SearchResult := SessionInfo × Message × String

/-- The per-message inner loop of `search` (main.rs:1650-1669): the first
trimmed non-empty line of the first message with a matching line. -/
def findFirstMatch (pat : String → Bool) (msgs : List Message) :
    Option (Message × String) :=
  msgs.findSome? (fun msg =>
    let text := messageText msg
    if text = "" then none
    else
      (((strSplitLines text).map strTrim).filter (fun l => l ≠ "")).find? pat
        |>.map (fun l => (msg, l)))

/-- Whether the optional project filter rejects a session (main.rs:1644-1648). -/
def projFilterRejects (proj : Option String) (s : SessionInfo) : Bool :=
  match proj with
  | some p => !strContainsSub (strToLower s.project) (strToLower p)
  | none => false

/-- The `for session in self.all()` loop of `search` (main.rs:1636-1670). -/
def searchGo (fs : FS) (pat : String → Bool) (proj : Option String) (maxResults : Nat) :
    List SessionInfo → List SearchResult → Store → List SearchResult × Store
  | [], acc, st => (acc, st)
  | s :: rest, acc, st =>
    let st1 := enrichSessionForAccess fs st s.source s.session_id
    let s1 := (lookupAL st1.sessions (internalKey s.source s.session_id)).getD s
    if projFilterRejects proj s1 then searchGo fs pat proj maxResults rest acc st1
    else
      match findFirstMatch pat (readMessages fs s1 true) with
      | none => searchGo fs pat proj maxResults rest acc st1
      | some ml =>
        let acc1 := acc ++ [(s1, ml.1, ml.2)]
        if maxResults ≤ acc1.length then (acc1, st1)
        else searchGo fs pat proj maxResults rest acc1 st1

/-- `SessionStore::search` (main.rs:1624-1674); `regexes` is the external
regex engine (compile result of a pattern, `none` = compile error). -/
def search (fs : FS) (regexes : String → Option (String → Bool)) (st0 : Store)
    (query : String) (proj : Option String) (maxResults : Nat) :
    Except String (List SearchResult) × Store :=
  let st := load fs st0
  match regexes ("(?i)" ++ query) with
  | none => (Except.error "invalid regex", st)
  | some pat =>
    let a := allOp fs st
    let r := searchGo fs pat proj maxResults a.1 [] a.2
    (Except.ok r.1, saveCacheIfDirty r.2)

/-! ## Store well-formedness -/

/-- The identity invariant of the live session map (spec §3: identity is
`(source, session_id)`): keys are distinct and each key is the internal
key of its record.  `load()` establishes this by construction; the
lookup/search theorems assume it of the loaded store they start from. -/
def storeInv (st : Store) : Prop :=
  (keysAL st.sessions).Nodup ∧
  ∀ e ∈ st.sessions, e.1 = internalKey e.2.source e.2.session_id

/-! ## Concrete fixtures used by the witness theorems -/

/-- A filesystem with no files at all. -/
def trivFS : FS :=
  { pathExists := fun _ => false, isFile := fun _ => false, files := fun _ => none,
    codexIndexFind := fun _ => none, codexFileInfo := fun _ _ => none,
    walkFind := fun _ _ => none, projectsScanFind := fun _ _ => none,
    ccModelFromFile := fun _ => none }

/-- An empty version-1 cache. -/
def emptyCache : SessionCache := { version := 1, histories := [], codexSessions := [] }

/-- A freshly constructed store (`SessionStore::new` with an empty cache
file). -/
def freshStore : Store :=
  { sessions := [], loaded := false, cache := emptyCache, cacheDirty := false,
    searchTextCache := [] }

/-- A well-formed history line: session `aaa` in project `/p`, timestamp
already in milliseconds. -/
def histEntryA : HistoryEntry :=
  { session_id := some "aaa", session_id_legacy := none,
    timestamp := some 2000000000000, ts := none, display := "hello", text := "",
    project := "/p" }

/-- The physical line carrying `histEntryA`. -/
def histLineA : HistLine := { byteLen := 60, blank := false, parsed := some histEntryA }

/-- A one-line Claude-Code history file. -/
def fdHistA : FileData :=
  { size := 60, mtimeMs := some 5, histLines := [histLineA], msgLines := [] }

/-- The deterministic Claude-Code transcript path for session `aaa` of
project `/p`. -/
def ccPathA : String := "~/.claude/projects/-p/aaa.jsonl"

/-- A filesystem holding the one-line Claude-Code history file and the
transcript file for session `aaa`. -/
def fsA : FS :=
  { pathExists := fun p => p == historyFile .Claudecode || p == ccPathA,
    isFile := fun p => p == ccPathA,
    files := fun p => if p == historyFile .Claudecode then some fdHistA else none,
    codexIndexFind := fun _ => none, codexFileInfo := fun _ _ => none,
    walkFind := fun _ _ => none, projectsScanFind := fun _ _ => none,
    ccModelFromFile := fun _ => none }

/-- The session record parsed from `histEntryA`. -/
def sessionA : SessionInfo :=
  { source := .Claudecode, session_id := "aaa", display := "hello", project := "/p",
    timestamp := 2000000000000, model := "", reasoning_effort := "",
    file_path := none }

/-- `sessionA` after `load()` resolved its transcript path. -/
def sessionAResolved : SessionInfo := { sessionA with file_path := some ccPathA }

/-- A cached history entry consistent with `fdHistA` (equal size and
mtime, `line_count ≥ len(sessions)`). -/
def cachedA : CachedHistory :=
  { file_size := 60, file_modified_ms := 5, line_count := 3, sessions := [sessionA] }

/-- A store whose persisted cache already holds `cachedA` for the
Claude-Code history. -/
def storeWithCacheA : Store :=
  { freshStore with cache := { emptyCache with histories := [("claudecode", cachedA)] } }

/-- The parsed entry of the first C2 scenario line: session `abc`, raw
timestamp 100 (seconds), display `fix bug`. -/
def c2Entry1 : HistoryEntry :=
  { session_id := some "abc", session_id_legacy := none, timestamp := some 100,
    ts := none, display := "fix bug", text := "", project := "/tmp/p" }

/-- The parsed entry of the second C2 scenario line: same session, raw
timestamp 50, a terser display. -/
def c2Entry2 : HistoryEntry :=
  { session_id := some "abc", session_id_legacy := none, timestamp := some 50,
    ts := none, display := "later", text := "", project := "/tmp/q" }

/-- First history line of the C2 scenario. -/
def c2Line1 : HistLine := { byteLen := 40, blank := false, parsed := some c2Entry1 }

/-- Second history line of the C2 scenario. -/
def c2Line2 : HistLine := { byteLen := 40, blank := false, parsed := some c2Entry2 }

/-- An already-seen record with timestamp 100 (merge-level C2 scenario). -/
def c2Existing : SessionInfo :=
  { source := .Claudecode, session_id := "abc", display := "fix bug",
    project := "/tmp/p", timestamp := 100, model := "", reasoning_effort := "",
    file_path := none }

/-- A session with no transcript file at all. -/
def sessionNoFile : SessionInfo :=
  { source := .Claudecode, session_id := "xyz", display := "d", project := "/p",
    timestamp := 5, model := "", reasoning_effort := "", file_path := none }

/-- Session `abc123` of the C4 ambiguity scenario. -/
def c4S1 : SessionInfo :=
  { source := .Claudecode, session_id := "abc123", display := "a", project := "/p",
    timestamp := 1, model := "", reasoning_effort := "", file_path := none }

/-- Session `abc456` of the C4 ambiguity scenario. -/
def c4S2 : SessionInfo :=
  { source := .Claudecode, session_id := "abc456", display := "b", project := "/p",
    timestamp := 2, model := "", reasoning_effort := "", file_path := none }

/-- A loaded, well-formed store holding `abc123` and `abc456`. -/
def c4Store : Store :=
  { sessions := [(internalKey .Claudecode "abc123", c4S1),
                 (internalKey .Claudecode "abc456", c4S2)],
    loaded := true, cache := emptyCache, cacheDirty := false, searchTextCache := [] }

/-- A one-message transcript line (`user` message with text
`hello world`). -/
def msgHello : Message :=
  { msg_type := "user", is_api_error := false, content := .str "hello world" }

/-- A session whose transcript file `t` holds `msgHello`. -/
def c7Session : SessionInfo :=
  { source := .Claudecode, session_id := "abc123", display := "hello",
    project := "/p", timestamp := 5, model := "", reasoning_effort := "",
    file_path := some "t" }

/-- The transcript file backing `c7Session`. -/
def c7FileData : FileData :=
  { size := 3, mtimeMs := some 1, histLines := [],
    msgLines := [{ blank := false, ccMsg := some msgHello, codexMsg := none }] }

/-- The filesystem backing `c7Session`. -/
def c7FS : FS :=
  { pathExists := fun p => p == "t", isFile := fun p => p == "t",
    files := fun p => if p == "t" then some c7FileData else none,
    codexIndexFind := fun _ => none, codexFileInfo := fun _ _ => none,
    walkFind := fun _ _ => none, projectsScanFind := fun _ _ => none,
    ccModelFromFile := fun _ => none }

/-- A loaded, well-formed store holding only `c7Session`. -/
def c7Store : Store :=
  { sessions := [(internalKey .Claudecode "abc123", c7Session)],
    loaded := true, cache := emptyCache, cacheDirty := false, searchTextCache := [] }

/-- A regex engine in which every pattern compiles and matches every
line. -/
def allMatchRegexes : String → Option (String → Bool) := fun _ => some (fun _ => true)

/-! ## Association-list lemmas -/

theorem lookupAL_insert_self {β : Type} (l : List (String × β)) (k : String) (v : β) :
    lookupAL (insertAL l k v) k = some v := by
  induction l with
  | nil => simp [insertAL, lookupAL]
  | cons e rest ih =>
    by_cases h : e.1 = k
    · simp [insertAL, lookupAL, h]
    · simp [insertAL, lookupAL, h, ih]

theorem lookupAL_insert_ne {β : Type} (l : List (String × β)) (k k' : String) (v : β)
    (h : k' ≠ k) : lookupAL (insertAL l k v) k' = lookupAL l k' := by
  induction l with
  | nil => simp [insertAL, lookupAL, Ne.symm h]
  | cons e rest ih =>
    by_cases he : e.1 = k
    · subst he
      simp [insertAL, lookupAL, Ne.symm h]
    · by_cases he' : e.1 = k'
      · simp [insertAL, lookupAL, he, he', h]
      · simp [insertAL, lookupAL, he, he', ih]

theorem length_insertAL_of_lookup_some {β : Type} (l : List (String × β)) (k : String)
    (v : β) (h : (lookupAL l k).isSome) : (insertAL l k v).length = l.length := by
  induction l with
  | nil => simp [lookupAL] at h
  | cons e rest ih =>
    by_cases he : e.1 = k
    · simp [insertAL, he]
    · simp [lookupAL, he] at h
      simp [insertAL, he, ih h]

theorem length_insertAL_of_lookup_none {β : Type} (l : List (String × β)) (k : String)
    (v : β) (h : lookupAL l k = none) : (insertAL l k v).length = l.length + 1 := by
  induction l with
  | nil => simp [insertAL]
  | cons e rest ih =>
    by_cases he : e.1 = k
    · simp [lookupAL, he] at h
    · simp [lookupAL, he] at h
      simp [insertAL, he, ih h]

theorem length_insertAL_le {β : Type} (l : List (String × β)) (k : String) (v : β) :
    (insertAL l k v).length ≤ l.length + 1 := by
  cases h : lookupAL l k with
  | none => simp [length_insertAL_of_lookup_none l k v h]
  | some w =>
    have := length_insertAL_of_lookup_some l k v (by simp [h])
    omega

theorem mem_insertAL {β : Type} (l : List (String × β)) (k : String) (v : β)
    (e : String × β) (h : e ∈ insertAL l k v) : e = (k, v) ∨ e ∈ l := by
  induction l with
  | nil =>
    rw [insertAL] at h
    left
    simpa using h
  | cons f rest ih =>
    by_cases hf : f.1 = k
    · rw [insertAL, if_pos hf] at h
      rcases List.mem_cons.mp h with h | h
      · left; exact h
      · right; exact List.mem_cons_of_mem _ h
    · rw [insertAL, if_neg hf] at h
      rcases List.mem_cons.mp h with h | h
      · right; exact h ▸ List.mem_cons_self _ _
      · rcases ih h with h' | h'
        · left; exact h'
        · right; exact List.mem_cons_of_mem _ h'

theorem keysAL_insertAL_of_mem {β : Type} (l : List (String × β)) (k : String) (v : β)
    (h : k ∈ keysAL l) : keysAL (insertAL l k v) = keysAL l := by
  induction l with
  | nil => simp [keysAL] at h
  | cons e rest ih =>
    by_cases he : e.1 = k
    · rw [insertAL, if_pos he]
      rw [keysAL, keysAL, List.map_cons, List.map_cons, he]
    · rw [keysAL, List.map_cons] at h
      rcases List.mem_cons.mp h with h | h
      · exact absurd h.symm he
      · rw [insertAL, if_neg he]
        have := ih (by rw [keysAL]; exact h)
        rw [keysAL] at this ⊢
        rw [List.map_cons, this]
        simp [keysAL]

theorem lookupAL_mem {β : Type} (l : List (String × β)) (k : String) (v : β)
    (h : lookupAL l k = some v) : (k, v) ∈ l := by
  induction l with
  | nil => simp [lookupAL] at h
  | cons e rest ih =>
    by_cases he : e.1 = k
    · rw [lookupAL, if_pos he] at h
      obtain ⟨a, b⟩ := e
      simp only [Option.some.injEq] at h
      simp only at he h
      subst he
      subst h
      exact List.mem_cons_self _ _
    · rw [lookupAL, if_neg he] at h
      exact List.mem_cons_of_mem _ (ih h)

theorem lookupAL_of_mem_nodup {β : Type} (l : List (String × β)) (k : String) (v : β)
    (hmem : (k, v) ∈ l) (hnd : (keysAL l).Nodup) : lookupAL l k = some v := by
  induction l with
  | nil => simp at hmem
  | cons e rest ih =>
    have hnd' : e.1 ∉ keysAL rest ∧ (keysAL rest).Nodup := by
      rw [keysAL, List.map_cons] at hnd
      exact List.nodup_cons.mp hnd
    rcases List.mem_cons.mp hmem with h | h
    · rw [lookupAL, ← h]
      simp
    · have hk : k ∈ keysAL rest := by
        simpa [keysAL] using List.mem_map_of_mem Prod.fst h
      have he : e.1 ≠ k := fun hh => hnd'.1 (hh ▸ hk)
      rw [lookupAL, if_neg he]
      exact ih h hnd'.2

theorem lookupAL_filterALVals {β : Type} (l : List (String × β)) (p : β → Bool)
    (k : String) (v : β) (h : lookupAL (filterALVals l p) k = some v) : p v = true := by
  induction l with
  | nil => simp [filterALVals, lookupAL] at h
  | cons e rest ih =>
    by_cases hp : p e.2
    · rw [filterALVals, List.filter_cons_of_pos (by simpa using hp)] at h
      by_cases he : e.1 = k
      · simp [lookupAL, he] at h
        rw [← h]; exact hp
      · simp [lookupAL, he] at h
        exact ih (by simpa [filterALVals] using h)
    · rw [filterALVals, List.filter_cons_of_neg (by simpa using hp)] at h
      exact ih (by simpa [filterALVals] using h)

/-! ## Internal-key injectivity -/

theorem listIsPref_self_append (p x : List Char) : listIsPref p (p ++ x) = true := by
  induction p with
  | nil => rfl
  | cons a as ih => simp [listIsPref, ih]

theorem internalKey_inj (s1 s2 : SessionSource) (i1 i2 : String)
    (h : internalKey s1 i1 = internalKey s2 i2) : s1 = s2 ∧ i1 = i2 := by
  have hd := congrArg String.data h
  cases s1 <;> cases s2 <;>
    simp only [internalKey, String.data_append] at hd
  · exact ⟨rfl, congrArg String.mk (List.append_cancel_left hd)⟩
  · exfalso
    have h1 : listIsPref "codex::".data ("claude code::".data ++ i1.data) = true := by
      rw [hd, ← String.data_append]
      rw [show ("codex::" ++ i2).data = "codex::".data ++ i2.data from
        String.data_append _ _]
      exact listIsPref_self_append _ _
    simp [listIsPref] at h1
  · exfalso
    have h1 : listIsPref "claude code::".data ("codex::".data ++ i1.data) = true := by
      rw [hd, ← String.data_append]
      rw [show ("claude code::" ++ i2).data = "claude code::".data ++ i2.data from
        String.data_append _ _]
      exact listIsPref_self_append _ _
    simp [listIsPref] at h1
  · exact ⟨rfl, congrArg String.mk (List.append_cancel_left hd)⟩

/-! ## Claim C5 (corrected): normalize_timestamp -/

/-- Claim C5, counterexample: the claim says every raw value below `10^12`
is scaled by 1000, but `normalize_timestamp` scales only strictly positive
values: at raw `-1` (below `10^12`) the code returns `-1`, not `-1000`. -/
theorem normalize_timestamp_claim_counterexample :
    ¬normalizeTimestamp (some (-1)) = (-1) * 1000 := by decide

/-- Claim C5 (amended): `normalize_timestamp` treats raw values strictly
between 0 and `10^12` as seconds and scales them by 1000, returns values
at or above `10^12` — and also non-positive values — unchanged, and maps an
absent timestamp to 0; in particular raw `1700000000` normalizes to
`1700000000000`. -/
theorem normalize_timestamp_spec :
    normalizeTimestamp none = 0 ∧
    (∀ t : Int, 0 < t → t < 1000000000000 → normalizeTimestamp (some t) = t * 1000) ∧
    (∀ t : Int, 1000000000000 ≤ t → normalizeTimestamp (some t) = t) ∧
    (∀ t : Int, t ≤ 0 → normalizeTimestamp (some t) = t) ∧
    normalizeTimestamp (some 1700000000) = 1700000000000 := by
  refine ⟨rfl, ?_, ?_, ?_, by decide⟩
  · intro t h1 h2
    rw [normalizeTimestamp, if_pos ⟨h1, h2⟩]
  · intro t h
    rw [normalizeTimestamp, if_neg]
    rintro ⟨-, h2⟩
    omega
  · intro t h
    rw [normalizeTimestamp, if_neg]
    rintro ⟨h1, -⟩
    omega

/-- Claim C5, witness: the amended theorem applied at raw 7 seconds. -/
theorem normalize_timestamp_spec_witness : normalizeTimestamp (some 7) = 7 * 1000 :=
  normalize_timestamp_spec.2.1 7 (by decide) (by decide)

/-! ## Claim C6: codex model / effort candidates -/

theorem strToLower_eq_empty_iff (x : String) : strToLower x = "" ↔ x = "" := by
  constructor
  · intro h
    have hd := congrArg String.data h
    simp only [strToLower] at hd
    have : x.data = [] := by simpa using hd
    cases x
    simp at this
    rw [this]
  · intro h
    rw [h]
    rfl

/-- Claim C6: `codex_model_candidate` keeps only the first
whitespace-separated token and accepts it exactly when it is non-empty,
is not `<synthetic>`, and consists solely of ASCII alphanumerics or
`-_.:/`; `codex_effort_candidate` lowercases the trimmed value and
accepts it exactly when it is non-empty and consists solely of ASCII
alphanumerics or `-_`.  In particular `gpt-5 high` normalizes to `gpt-5`,
`HIGH` to `high`, and `high effort` is rejected. -/
theorem codex_candidate_normalization :
    (∀ s t : String, codexModelCandidate s = some t ↔
      t = strFirstToken s ∧ t ≠ "" ∧ t ≠ "<synthetic>" ∧
        ∀ c ∈ t.data, isValidModelChar c = true) ∧
    (∀ s t : String, codexEffortCandidate s = some t ↔
      t = strToLower (strTrim s) ∧ t ≠ "" ∧
        ∀ c ∈ t.data, isValidEffortChar c = true) ∧
    codexModelCandidate "gpt-5 high" = some "gpt-5" ∧
    codexEffortCandidate "HIGH" = some "high" ∧
    codexEffortCandidate "high effort" = none := by
  refine ⟨?_, ?_, by decide, by decide, by decide⟩
  · intro s t
    simp only [codexModelCandidate]
    by_cases h12 : strFirstToken s = "" ∨ strFirstToken s = "<synthetic>"
    · rw [if_pos h12]
      constructor
      · intro h
        simp at h
      · rintro ⟨ht, hne, hns, -⟩
        rcases h12 with h | h
        · exact (hne (ht.trans h)).elim
        · exact (hns (ht.trans h)).elim
    · rw [if_neg h12]
      push_neg at h12
      by_cases h3 : (strFirstToken s).data.all isValidModelChar
      · rw [if_pos h3]
        constructor
        · intro h
          have ht : strFirstToken s = t := by simpa using h
          subst ht
          exact ⟨rfl, h12.1, h12.2, List.all_eq_true.mp h3⟩
        · rintro ⟨ht, -, -, -⟩
          rw [ht]
      · rw [if_neg h3]
        constructor
        · intro h
          simp at h
        · rintro ⟨ht, -, -, hv⟩
          exact absurd (List.all_eq_true.mpr (ht ▸ hv)) h3
  · intro s t
    simp only [codexEffortCandidate]
    by_cases h1 : strTrim s = ""
    · simp only [if_pos h1]
      constructor
      · intro h
        simp at h
      · rintro ⟨ht, hne, -⟩
        rw [h1] at ht
        exact absurd ht (by simpa using hne)
    · simp only [if_neg h1]
      by_cases h2 : (strToLower (strTrim s)).data.all isValidEffortChar
      · simp only [if_pos h2, Option.some.injEq]
        constructor
        · intro h
          subst h
          refine ⟨rfl, ?_, List.all_eq_true.mp h2⟩
          intro hc
          exact h1 ((strToLower_eq_empty_iff _).mp hc)
        · rintro ⟨ht, -, -⟩
          exact ht.symm
      · simp only [if_neg h2]
        constructor
        · intro h
          simp at h
        · rintro ⟨ht, -, hv⟩
          exact absurd (List.all_eq_true.mpr (ht ▸ hv)) h2

/-- Claim C6, witness: the characterization applied at `gpt-5 high`. -/
theorem codex_candidate_normalization_witness :
    "gpt-5" = strFirstToken "gpt-5 high" ∧ "gpt-5" ≠ "" ∧ "gpt-5" ≠ "<synthetic>" ∧
      ∀ c ∈ ("gpt-5" : String).data, isValidModelChar c = true :=
  (codex_candidate_normalization.1 "gpt-5 high" "gpt-5").mp (by decide)

/-! ## Claim C2: history-line merge semantics -/

/-- Claim C2: in `parse_history_lines_into`, merging a line into an
already-seen record with the same session id obeys: a strictly newer
timestamp overwrites `display`/`project` (and the timestamp); a
lower-or-equal timestamp keeps the record's timestamp and only fills an
empty `display`/`project` from a non-empty value.  In particular,
processing two lines for one session with raw timestamps 100 then 50
keeps the first line's (normalized, `100 s = 100000 ms`) timestamp and
its display `fix bug`. -/
theorem parse_history_merge_semantics :
    (∀ (existing : SessionInfo) (d p : String) (ts : Int),
      existing.timestamp < ts →
        mergeHistoryRecord existing d p ts =
          { existing with timestamp := ts, display := d, project := p }) ∧
    (∀ (existing : SessionInfo) (d p : String) (ts : Int),
      ts ≤ existing.timestamp →
        (mergeHistoryRecord existing d p ts).timestamp = existing.timestamp ∧
        (mergeHistoryRecord existing d p ts).display =
          (if existing.display = "" ∧ d ≠ "" then d else existing.display) ∧
        (mergeHistoryRecord existing d p ts).project =
          (if existing.project = "" ∧ p ≠ "" then p else existing.project)) ∧
    lookupAL (parseHistoryLinesInto .Claudecode [c2Line1, c2Line2] []).1
        (internalKey .Claudecode "abc") =
      some { source := .Claudecode, session_id := "abc", display := "fix bug",
             project := "/tmp/p", timestamp := 100000, model := "",
             reasoning_effort := "", file_path := none } := by
  refine ⟨?_, ?_, by decide⟩
  · intro existing d p ts h
    rw [mergeHistoryRecord, if_pos h]
  · intro existing d p ts h
    rw [mergeHistoryRecord, if_neg (by omega)]
    exact ⟨rfl, rfl, rfl⟩

/-- Claim C2, witness: a lower-timestamp line (50 against 100) keeps the
record's timestamp. -/
theorem parse_history_merge_semantics_witness :
    (mergeHistoryRecord c2Existing "later" "/tmp/q" 50).timestamp = 100 :=
  (parse_history_merge_semantics.2.1 c2Existing "later" "/tmp/q" 50 (by decide)).1

/-! ## Claim C1: the three-branch staleness decision -/

/-- Claim C1: for a readable on-disk history file, `load_sessions_for_source`
decides between exactly three outcomes: (equal size and mtime, consistency
check holds) → the cached sessions verbatim with no re-parse and no state
change; (strictly larger file, mtime at least the cached one) → parse only
the byte range starting at the cached `file_size`, merged over the cached
sessions, with `line_count` accumulated; every other relationship (shrank,
mtime regressed, equal-but-inconsistent, or no cache entry) → full
re-parse from offset zero. -/
theorem load_sessions_staleness_decision (fs : FS) (st : Store)
    (source : SessionSource) (fd : FileData)
    (hex : fs.pathExists (historyFile source) = true)
    (hfd : fs.files (historyFile source) = some fd) :
    (∀ c, lookupAL st.cache.histories (cacheKey source) = some c →
      c.file_size = fd.size → c.file_modified_ms = fd.mtimeMs.getD 0 →
      (c.file_size = 0 ∨ c.sessions.length ≤ c.line_count) →
      loadSessionsForSource fs st source = (insertSessions source c.sessions [], st)) ∧
    (∀ c, lookupAL st.cache.histories (cacheKey source) = some c →
      c.file_size < fd.size → c.file_modified_ms ≤ fd.mtimeMs.getD 0 →
      loadSessionsForSource fs st source =
        (let r := parseHistoryLinesInto source
            (linesFromOffset fd.histLines c.file_size)
            (insertSessions source c.sessions [])
         (r.1, writeHistory st (cacheKey source)
           { file_size := fd.size, file_modified_ms := fd.mtimeMs.getD 0,
             line_count := u64SatAdd c.line_count r.2,
             sessions := valuesAL r.1 }))) ∧
    ((lookupAL st.cache.histories (cacheKey source) = none ∨
      ∃ c, lookupAL st.cache.histories (cacheKey source) = some c ∧
        ¬(c.file_size = fd.size ∧ c.file_modified_ms = fd.mtimeMs.getD 0 ∧
          (c.file_size = 0 ∨ c.sessions.length ≤ c.line_count)) ∧
        ¬(c.file_size < fd.size ∧ c.file_modified_ms ≤ fd.mtimeMs.getD 0)) →
      loadSessionsForSource fs st source =
        (let r := parseHistoryLinesInto source fd.histLines []
         (r.1, writeHistory st (cacheKey source)
           { file_size := fd.size, file_modified_ms := fd.mtimeMs.getD 0,
             line_count := r.2, sessions := valuesAL r.1 }))) := by
  refine ⟨?_, ?_, ?_⟩
  · intro c hc hsz hmt hcons
    simp only [loadSessionsForSource, hex, hfd, hc]
    rw [if_neg (by simp), if_pos ⟨hsz, hmt, hcons⟩]
  · intro c hc hlt hle
    simp only [loadSessionsForSource, hex, hfd, hc]
    rw [if_neg (by simp), if_neg (by rintro ⟨h1, -⟩; omega), if_pos ⟨hlt, hle⟩]
  · rintro (hc | ⟨c, hc, hn1, hn2⟩)
    · simp only [loadSessionsForSource, hex, hfd, hc]
      rw [if_neg (by simp)]
      rfl
    · simp only [loadSessionsForSource, hex, hfd, hc]
      rw [if_neg (by simp), if_neg hn1, if_neg hn2]
      rfl

/-- Claim C1, witness: the no-re-parse branch on a store whose cache entry
matches the on-disk file exactly. -/
theorem load_sessions_staleness_decision_witness :
    loadSessionsForSource fsA storeWithCacheA .Claudecode =
      (insertSessions .Claudecode cachedA.sessions [], storeWithCacheA) :=
  (load_sessions_staleness_decision fsA storeWithCacheA .Claudecode fdHistA
    (by decide) (by decide)).1 cachedA (by decide) (by decide) (by decide)
    (by decide)

/-! ## Claim C9: line_count dominates the deduplicated session count -/


theorem parseStep_size_bound (source : SessionSource)
    (acc : List (String × SessionInfo) × Nat) (l : HistLine) :
    (parseStep source acc l).1.length + acc.2 ≤
      acc.1.length + (parseStep source acc l).2 := by
  simp only [parseStep]
  by_cases hb : l.blank
  · simp [hb]
  · rw [if_neg (by simp [hb])]
    cases hp : l.parsed with
    | none => simp
    | some entry =>
      simp only
      cases hs : entry.session_id.or entry.session_id_legacy with
      | none => simp
      | some sid =>
        simp only
        by_cases he : sid = ""
        · simp [he]
        · rw [if_neg he]
          cases hl : lookupAL acc.1 (internalKey source sid) with
          | some existing =>
            simp only
            rw [length_insertAL_of_lookup_some acc.1 (internalKey source sid) _
              (by simp [hl])]
            omega
          | none =>
            simp only
            rw [length_insertAL_of_lookup_none acc.1 (internalKey source sid) _ hl]
            omega

theorem parseFold_size_bound (source : SessionSource) :
    ∀ (lines : List HistLine) (acc : List (String × SessionInfo) × Nat),
      (lines.foldl (parseStep source) acc).1.length + acc.2 ≤
        acc.1.length + (lines.foldl (parseStep source) acc).2 := by
  intro lines
  induction lines with
  | nil => intro acc; simp
  | cons l ls ih =>
    intro acc
    have h1 := parseStep_size_bound source acc l
    have h2 := ih (parseStep source acc l)
    simp only [List.foldl_cons]
    omega

theorem parseStep_count_le (source : SessionSource)
    (acc : List (String × SessionInfo) × Nat) (l : HistLine) :
    (parseStep source acc l).2 ≤ acc.2 + 1 := by
  simp only [parseStep]
  by_cases hb : l.blank
  · simp [hb]
  · rw [if_neg (by simp [hb])]
    cases hp : l.parsed with
    | none => simp
    | some entry =>
      simp only
      cases hs : entry.session_id.or entry.session_id_legacy with
      | none => simp
      | some sid =>
        simp only
        by_cases he : sid = ""
        · simp [he]
        · rw [if_neg he]
          cases hl : lookupAL acc.1 (internalKey source sid) <;> simp

theorem parseFold_count_le (source : SessionSource) :
    ∀ (lines : List HistLine) (acc : List (String × SessionInfo) × Nat),
      (lines.foldl (parseStep source) acc).2 ≤ acc.2 + lines.length := by
  intro lines
  induction lines with
  | nil => intro acc; simp
  | cons l ls ih =>
    intro acc
    have h1 := parseStep_count_le source acc l
    have h2 := ih (parseStep source acc l)
    simp only [List.foldl_cons, List.length_cons]
    omega

theorem insertSessions_length_le (source : SessionSource) :
    ∀ (ss : List SessionInfo) (m : List (String × SessionInfo)),
      (insertSessions source ss m).length ≤ m.length + ss.length := by
  intro ss
  induction ss with
  | nil => intro m; simp [insertSessions]
  | cons s rest ih =>
    intro m
    rw [insertSessions, List.foldl_cons]
    have h1 := length_insertAL_le m (internalKey source s.session_id) s
    have h2 := ih (insertAL m (internalKey source s.session_id) s)
    rw [insertSessions] at h2
    simp only [List.length_cons]
    omega

theorem linesFromOffset_length_le :
    ∀ (ls : List HistLine) (off : Nat), (linesFromOffset ls off).length ≤ ls.length := by
  intro ls
  induction ls with
  | nil => intro off; simp [linesFromOffset]
  | cons l rest ih =>
    intro off
    rw [linesFromOffset]
    split
    · simp
    · split
      · simp
      · have := ih (off - l.byteLen)
        simp only [List.length_cons]
        omega

theorem loadSFS_missing (fs : FS) (st : Store) (source : SessionSource)
    (hex : fs.pathExists (historyFile source) = false) :
    loadSessionsForSource fs st source =
      (cachedFallback st (cacheKey source) source, st) := by
  simp only [loadSessionsForSource, hex]
  rw [if_pos trivial]

theorem loadSFS_unreadable (fs : FS) (st : Store) (source : SessionSource)
    (hex : fs.pathExists (historyFile source) = true)
    (hfd : fs.files (historyFile source) = none) :
    loadSessionsForSource fs st source =
      (cachedFallback st (cacheKey source) source, st) := by
  simp only [loadSessionsForSource, hex, hfd]
  rw [if_neg (by simp)]

theorem loadSFS_noentry (fs : FS) (st : Store) (source : SessionSource) (fd : FileData)
    (hex : fs.pathExists (historyFile source) = true)
    (hfd : fs.files (historyFile source) = some fd)
    (hc : lookupAL st.cache.histories (cacheKey source) = none) :
    loadSessionsForSource fs st source = fullReparse st source fd (cacheKey source) := by
  simp only [loadSessionsForSource, hex, hfd, hc]
  rw [if_neg (by simp)]

theorem loadSFS_stale (fs : FS) (st : Store) (source : SessionSource) (fd : FileData)
    (c : CachedHistory)
    (hex : fs.pathExists (historyFile source) = true)
    (hfd : fs.files (historyFile source) = some fd)
    (hc : lookupAL st.cache.histories (cacheKey source) = some c)
    (hn1 : ¬(c.file_size = fd.size ∧ c.file_modified_ms = fd.mtimeMs.getD 0 ∧
      (c.file_size = 0 ∨ c.sessions.length ≤ c.line_count)))
    (hn2 : ¬(c.file_size < fd.size ∧ c.file_modified_ms ≤ fd.mtimeMs.getD 0)) :
    loadSessionsForSource fs st source = fullReparse st source fd (cacheKey source) := by
  simp only [loadSessionsForSource, hex, hfd, hc]
  rw [if_neg (by simp), if_neg hn1, if_neg hn2]

theorem loadSFS_fresh (fs : FS) (st : Store) (source : SessionSource) (fd : FileData)
    (c : CachedHistory)
    (hex : fs.pathExists (historyFile source) = true)
    (hfd : fs.files (historyFile source) = some fd)
    (hc : lookupAL st.cache.histories (cacheKey source) = some c)
    (hcond : c.file_size = fd.size ∧ c.file_modified_ms = fd.mtimeMs.getD 0 ∧
      (c.file_size = 0 ∨ c.sessions.length ≤ c.line_count)) :
    loadSessionsForSource fs st source = (insertSessions source c.sessions [], st) := by
  simp only [loadSessionsForSource, hex, hfd, hc]
  rw [if_neg (by simp), if_pos hcond]

theorem loadSFS_incr (fs : FS) (st : Store) (source : SessionSource) (fd : FileData)
    (c : CachedHistory)
    (hex : fs.pathExists (historyFile source) = true)
    (hfd : fs.files (historyFile source) = some fd)
    (hc : lookupAL st.cache.histories (cacheKey source) = some c)
    (hn1 : ¬(c.file_size = fd.size ∧ c.file_modified_ms = fd.mtimeMs.getD 0 ∧
      (c.file_size = 0 ∨ c.sessions.length ≤ c.line_count)))
    (hcond2 : c.file_size < fd.size ∧ c.file_modified_ms ≤ fd.mtimeMs.getD 0) :
    loadSessionsForSource fs st source =
      (let r := parseHistoryLinesInto source (linesFromOffset fd.histLines c.file_size)
          (insertSessions source c.sessions [])
       (r.1, writeHistory st (cacheKey source)
         { file_size := fd.size, file_modified_ms := fd.mtimeMs.getD 0,
           line_count := u64SatAdd c.line_count r.2,
           sessions := valuesAL r.1 })) := by
  simp only [loadSessionsForSource, hex, hfd, hc]
  rw [if_neg (by simp), if_neg hn1, if_pos hcond2]

/-- Claim C9: every `CachedHistory` entry visible under the source's cache
key after `load_sessions_for_source` satisfies
`line_count ≥ len(sessions)`, provided any pre-existing entry satisfied the
invariant (the incremental branch starts from it) and the counters stay in
`u64` range. -/
theorem cached_history_line_count_invariant (fs : FS) (st : Store)
    (source : SessionSource)
    (h1 : ∀ c, lookupAL st.cache.histories (cacheKey source) = some c →
      c.sessions.length ≤ c.line_count)
    (h2 : ∀ c fd, lookupAL st.cache.histories (cacheKey source) = some c →
      fs.files (historyFile source) = some fd →
      c.line_count + fd.histLines.length < 2 ^ 64) :
    ∀ e, lookupAL (loadSessionsForSource fs st source).2.cache.histories
        (cacheKey source) = some e →
      e.sessions.length ≤ e.line_count := by
  intro e he
  by_cases hex : fs.pathExists (historyFile source) = false
  · rw [loadSFS_missing fs st source hex] at he
    exact h1 e he
  · have hex' : fs.pathExists (historyFile source) = true := by
      cases h : fs.pathExists (historyFile source)
      · exact absurd h hex
      · rfl
    cases hfd : fs.files (historyFile source) with
    | none =>
      rw [loadSFS_unreadable fs st source hex' hfd] at he
      exact h1 e he
    | some fd =>
      cases hc : lookupAL st.cache.histories (cacheKey source) with
      | none =>
        rw [loadSFS_noentry fs st source fd hex' hfd hc] at he
        simp only [fullReparse, writeHistory, lookupAL_insert_self,
          Option.some.injEq] at he
        subst he
        have hb := parseFold_size_bound source fd.histLines ([], 0)
        simp only [parseHistoryLinesInto, valuesAL, List.length_map]
        simp only [List.length_nil, Nat.add_zero, Nat.zero_add] at hb
        exact hb
      | some c =>
        by_cases hcond1 : c.file_size = fd.size ∧
            c.file_modified_ms = fd.mtimeMs.getD 0 ∧
            (c.file_size = 0 ∨ c.sessions.length ≤ c.line_count)
        · rw [loadSFS_fresh fs st source fd c hex' hfd hc hcond1] at he
          exact h1 e he
        · by_cases hcond2 : c.file_size < fd.size ∧
              c.file_modified_ms ≤ fd.mtimeMs.getD 0
          · rw [loadSFS_incr fs st source fd c hex' hfd hc hcond1 hcond2] at he
            simp only [writeHistory, lookupAL_insert_self, Option.some.injEq] at he
            subst he
            have hseen := insertSessions_length_le source c.sessions []
            have hb := parseFold_size_bound source
              (linesFromOffset fd.histLines c.file_size)
              (insertSessions source c.sessions [], 0)
            have hcnt := parseFold_count_le source
              (linesFromOffset fd.histLines c.file_size)
              (insertSessions source c.sessions [], 0)
            have hlen := linesFromOffset_length_le fd.histLines c.file_size
            have hrange := h2 c fd hc hfd
            have hc1 := h1 c hc
            simp only [parseHistoryLinesInto, valuesAL, List.length_map,
              u64SatAdd]
            simp only [parseHistoryLinesInto] at hb hcnt
            simp only [List.length_nil, Nat.zero_add, Nat.add_zero] at hb hcnt hseen
            rw [Nat.min_def]
            split
            · omega
            · omega
          · rw [loadSFS_stale fs st source fd c hex' hfd hc hcond1 hcond2] at he
            simp only [fullReparse, writeHistory, lookupAL_insert_self,
              Option.some.injEq] at he
            subst he
            have hb := parseFold_size_bound source fd.histLines ([], 0)
            simp only [parseHistoryLinesInto, valuesAL, List.length_map]
            simp only [List.length_nil, Nat.add_zero, Nat.zero_add] at hb
            exact hb

/-- Claim C9, witness: the invariant of the entry written by a cold full
parse of the one-line history file. -/
theorem cached_history_line_count_invariant_witness :
    ({ file_size := 60, file_modified_ms := 5, line_count := 1,
       sessions := [sessionA] } : CachedHistory).sessions.length ≤
      ({ file_size := 60, file_modified_ms := 5, line_count := 1,
         sessions := [sessionA] } : CachedHistory).line_count :=
  cached_history_line_count_invariant fsA freshStore .Claudecode
    (by intro c hc; simp [freshStore, emptyCache, lookupAL] at hc)
    (by intro c fd hc; simp [freshStore, emptyCache, lookupAL] at hc)
    { file_size := 60, file_modified_ms := 5, line_count := 1,
      sessions := [sessionA] }
    (by decide)

/-! ## Claim C3: the resumability invariant after load -/

theorem isResumable_spec (fs : FS) (s : SessionInfo)
    (h : isResumableSession fs s = true) :
    s.project ≠ "" ∧ ∃ p, s.file_path = some p ∧ fs.isFile p = true := by
  rw [isResumableSession] at h
  by_cases hp : strTrim s.project = ""
  · rw [if_pos hp] at h
    simp at h
  · rw [if_neg hp] at h
    refine ⟨?_, ?_⟩
    · intro he
      apply hp
      rw [he]
      rfl
    · cases hfp : s.file_path with
      | none => rw [hfp] at h; simp at h
      | some p => rw [hfp] at h; exact ⟨p, rfl, h⟩

theorem load_of_loaded (fs : FS) (st : Store) (h : st.loaded = true) :
    load fs st = st := by
  rw [load, if_pos h]

/-- Claim C3: every session record remaining in the visible map after a
load pass has a non-empty project and a transcript path naming an existing
regular file — the retain filter of `load()` drops everything else. -/
theorem load_resumability_invariant (fs : FS) (st : Store) (h : st.loaded = false) :
    ∀ k s, lookupAL (load fs st).sessions k = some s →
      s.project ≠ "" ∧ ∃ p, s.file_path = some p ∧ fs.isFile p = true := by
  intro k s hs
  have hload : load fs st = loadCore fs st := by
    rw [load, if_neg (by simp [h])]
  rw [hload] at hs
  have hsess : (loadCore fs st).sessions =
      filterALVals (loadEnrichPhase fs
        (gatherSources fs [SessionSource.Claudecode, SessionSource.Codex] ([], st)).1
        (gatherSources fs [SessionSource.Claudecode, SessionSource.Codex] ([], st)).2).1
        (fun s => !(s.display = "" ∧ s.timestamp = 0 : Bool) &&
          isResumableSession fs s) := rfl
  rw [hsess] at hs
  have hpred := lookupAL_filterALVals _ _ _ _ hs
  rw [Bool.and_eq_true] at hpred
  exact isResumable_spec fs s hpred.2

/-- Claim C3, witness: after loading the one-session fixture filesystem,
the surviving record satisfies the invariant. -/
theorem load_resumability_invariant_witness :
    sessionAResolved.project ≠ "" ∧
      ∃ p, sessionAResolved.file_path = some p ∧ fsA.isFile p = true :=
  load_resumability_invariant fsA freshStore rfl (internalKey .Claudecode "aaa")
    sessionAResolved (by decide)

/-! ## Claim C8: load is idempotent -/

/-- Claim C8: a second `load()` on the same store returns immediately via
the `loaded` flag, leaving the session map and the cache exactly as the
first call left them. -/
theorem load_idempotent (fs : FS) (st : Store) : load fs (load fs st) = load fs st := by
  by_cases h : st.loaded
  · rw [load_of_loaded fs st h, load_of_loaded fs st h]
  · have h2 : load fs st = loadCore fs st := by
      rw [load, if_neg h]
    rw [h2, load_of_loaded fs (loadCore fs st) rfl]

/-! ## Claim C10: file-less sessions and full-text search -/

theorem strContainsSub_empty_text (q : String) (h : q ≠ "") :
    strContainsSub "" q = false := by
  have hd : ("" : String).data = [] := rfl
  rw [strContainsSub, hd, listInfix]
  cases hq : q.data with
  | nil =>
    exfalso
    apply h
    cases q
    simp at hq
    rw [hq]
  | cons a as => rfl

/-- Claim C10: for a session whose `file_path` is `None`, or names a file
whose metadata cannot be read, `session_contains_full_text` is `true` for
the empty query and `false` for every non-empty query: the signature
degrades to `(0, 0)` and the cached concatenated text is empty.  (The
cache hypothesis states what is true of every entry this function itself
writes: an entry recorded under signature `(0, 0)` has empty text.) -/
theorem search_text_fileless (fs : FS) (st : Store) (session : SessionInfo)
    (hfp : session.file_path = none ∨
      ∃ p, session.file_path = some p ∧ fs.files p = none)
    (hcache : ∀ e, lookupAL st.searchTextCache
        (internalKey session.source session.session_id) = some e →
      e.file_size = 0 → e.file_modified_ms = 0 → e.text = "") :
    (sessionContainsFullText fs st session "").1 = true ∧
    ∀ q, q ≠ "" → (sessionContainsFullText fs st session q).1 = false := by
  have hsig : searchTextSignature fs session.file_path = (0, 0) := by
    rcases hfp with h | ⟨p, hp, hf⟩
    · rw [h]
      rfl
    · rw [hp]
      simp only [searchTextSignature, hf]
  have hread : readMessages fs session true = [] := by
    rcases hfp with h | ⟨p, hp, hf⟩
    · simp only [readMessages, h]
    · simp only [readMessages, hp, hf]
  have htext : computeSearchText fs session = "" := by
    rw [computeSearchText, hread]
    rfl
  constructor
  · rfl
  · intro q hq
    simp only [sessionContainsFullText, if_neg hq, hsig, htext]
    cases hl : lookupAL st.searchTextCache
        (internalKey session.source session.session_id) with
    | none =>
      simp only [hl, if_pos, lookupAL_insert_self]
      exact strContainsSub_empty_text q hq
    | some cached =>
      simp only [hl]
      by_cases hstale : cached.file_size ≠ (0 : Nat) ∨ cached.file_modified_ms ≠ (0 : Int)
      · simp only [hstale, decide_True, if_pos, lookupAL_insert_self]
        exact strContainsSub_empty_text q hq
      · push_neg at hstale
        have h0 := hcache cached hl hstale.1 hstale.2
        simp only [hstale.1, hstale.2, ne_eq, not_true_eq_false, or_self,
          decide_False, Bool.false_eq_true, if_false, hl, h0]
        exact strContainsSub_empty_text q hq

/-- Claim C10, witness: a session with no transcript file, on a fresh
store, matches the empty query and no other. -/
theorem search_text_fileless_witness :
    (sessionContainsFullText trivFS freshStore sessionNoFile "").1 = true ∧
      (sessionContainsFullText trivFS freshStore sessionNoFile "q").1 = false := by
  have h := search_text_fileless trivFS freshStore sessionNoFile
    (Or.inl (by decide))
    (by intro e he; simp [freshStore, lookupAL] at he)
  exact ⟨h.1, h.2 "q" (by decide)⟩

/-! ## Preservation lemmas for access-time enrichment -/

theorem clearCodexCachePath_sessions (st : Store) (sid : String) :
    (clearCodexCachePath st sid).sessions = st.sessions ∧
    (clearCodexCachePath st sid).loaded = st.loaded := by
  simp only [clearCodexCachePath]
  split
  · exact ⟨rfl, rfl⟩
  · split
    · exact ⟨rfl, rfl⟩
    · exact ⟨rfl, rfl⟩

theorem updateCodexCache_sessions (fs : FS) (st : Store) (sid p : String)
    (info : Option CodexFileInfo) :
    (updateCodexCache fs st sid p info).sessions = st.sessions ∧
    (updateCodexCache fs st sid p info).loaded = st.loaded :=
  ⟨rfl, rfl⟩

theorem updateHistoryCacheSession_sessions (st : Store) (s : SessionInfo) :
    (updateHistoryCacheSession st s).sessions = st.sessions ∧
    (updateHistoryCacheSession st s).loaded = st.loaded := by
  simp only [updateHistoryCacheSession]
  split
  · exact ⟨rfl, rfl⟩
  · split
    · exact ⟨rfl, rfl⟩
    · exact ⟨rfl, rfl⟩

theorem enrichStep1_fields (fs : FS) (source : SessionSource) (sid : String)
    (x : EnrichState) :
    (enrichStep1 fs source sid x).1.session_id = x.1.session_id ∧
    (enrichStep1 fs source sid x).1.source = x.1.source := by
  simp only [enrichStep1]
  split
  · split
    · exact ⟨rfl, rfl⟩
    · exact ⟨rfl, rfl⟩
  · exact ⟨rfl, rfl⟩

theorem enrichStep1_store (fs : FS) (source : SessionSource) (sid : String)
    (x : EnrichState) :
    (enrichStep1 fs source sid x).2.2.sessions = x.2.2.sessions ∧
    (enrichStep1 fs source sid x).2.2.loaded = x.2.2.loaded := by
  simp only [enrichStep1]
  split
  · split
    · exact ⟨rfl, rfl⟩
    · split
      · exact (clearCodexCachePath_sessions _ _)
      · exact ⟨rfl, rfl⟩
  · exact ⟨rfl, rfl⟩

theorem enrichStep2_fields (fs : FS) (source : SessionSource) (sid : String)
    (x : EnrichState) :
    (enrichStep2 fs source sid x).1.session_id = x.1.session_id ∧
    (enrichStep2 fs source sid x).1.source = x.1.source := by
  simp only [enrichStep2]
  split
  · split
    · exact ⟨rfl, rfl⟩
    · exact ⟨rfl, rfl⟩
  · exact ⟨rfl, rfl⟩

theorem enrichStep2_store (fs : FS) (source : SessionSource) (sid : String)
    (x : EnrichState) :
    (enrichStep2 fs source sid x).2.2.sessions = x.2.2.sessions ∧
    (enrichStep2 fs source sid x).2.2.loaded = x.2.2.loaded := by
  simp only [enrichStep2]
  split
  · split
    · split
      · exact (updateCodexCache_sessions _ _ _ _ _)
      · exact ⟨rfl, rfl⟩
    · exact ⟨rfl, rfl⟩
  · exact ⟨rfl, rfl⟩

theorem enrichApplyCodexInfo_fields (fileChanged : Bool) (info : CodexFileInfo)
    (s : SessionInfo) (changed : Bool) :
    (enrichApplyCodexInfo fileChanged info s changed).1.session_id = s.session_id ∧
    (enrichApplyCodexInfo fileChanged info s changed).1.source = s.source := by
  simp only [enrichApplyCodexInfo]
  repeat' split
  all_goals exact ⟨rfl, rfl⟩

theorem enrichStep3_fields (fs : FS) (source : SessionSource) (sid : String)
    (x : EnrichState) :
    (enrichStep3 fs source sid x).1.session_id = x.1.session_id ∧
    (enrichStep3 fs source sid x).1.source = x.1.source := by
  simp only [enrichStep3]
  split
  · split
    · split
      · split
        · exact enrichApplyCodexInfo_fields _ _ _ _
        · exact ⟨rfl, rfl⟩
      · exact ⟨rfl, rfl⟩
    · exact ⟨rfl, rfl⟩
  · exact ⟨rfl, rfl⟩

theorem enrichStep3_store (fs : FS) (source : SessionSource) (sid : String)
    (x : EnrichState) :
    (enrichStep3 fs source sid x).2.2.sessions = x.2.2.sessions ∧
    (enrichStep3 fs source sid x).2.2.loaded = x.2.2.loaded := by
  simp only [enrichStep3]
  split
  · split
    · split
      · split
        · exact (updateCodexCache_sessions _ _ _ _ _)
        · exact ⟨rfl, rfl⟩
      · exact ⟨rfl, rfl⟩
    · exact ⟨rfl, rfl⟩
  · exact ⟨rfl, rfl⟩

theorem enrichStep4_fields (fs : FS) (source : SessionSource) (x : EnrichState) :
    (enrichStep4 fs source x).1.session_id = x.1.session_id ∧
    (enrichStep4 fs source x).1.source = x.1.source := by
  simp only [enrichStep4]
  repeat' split
  all_goals exact ⟨rfl, rfl⟩

theorem enrichStep4_store (fs : FS) (source : SessionSource) (x : EnrichState) :
    (enrichStep4 fs source x).2.2.sessions = x.2.2.sessions ∧
    (enrichStep4 fs source x).2.2.loaded = x.2.2.loaded := by
  simp only [enrichStep4]
  repeat' split
  all_goals exact ⟨rfl, rfl⟩

theorem enrichStep5_fields (x : EnrichState) :
    (enrichStep5 x).1.session_id = x.1.session_id ∧
    (enrichStep5 x).1.source = x.1.source := by
  simp only [enrichStep5]
  split
  · exact ⟨rfl, rfl⟩
  · exact ⟨rfl, rfl⟩

theorem enrichStep5_store (x : EnrichState) :
    (enrichStep5 x).2.2.sessions = x.2.2.sessions ∧
    (enrichStep5 x).2.2.loaded = x.2.2.loaded := by
  simp only [enrichStep5]
  split
  · exact ⟨rfl, rfl⟩
  · exact ⟨rfl, rfl⟩

theorem enrichCore_fields (fs : FS) (source : SessionSource) (sid : String)
    (s0 : SessionInfo) (st : Store) :
    (enrichCore fs source sid s0 st).1.session_id = s0.session_id ∧
    (enrichCore fs source sid s0 st).1.source = s0.source := by
  have h1 := enrichStep1_fields fs source sid (s0, false, st)
  have h2 := enrichStep2_fields fs source sid (enrichStep1 fs source sid (s0, false, st))
  have h3 := enrichStep3_fields fs source sid
    (enrichStep2 fs source sid (enrichStep1 fs source sid (s0, false, st)))
  have h4 := enrichStep4_fields fs source
    (enrichStep3 fs source sid
      (enrichStep2 fs source sid (enrichStep1 fs source sid (s0, false, st))))
  have h5 := enrichStep5_fields
    (enrichStep4 fs source
      (enrichStep3 fs source sid
        (enrichStep2 fs source sid (enrichStep1 fs source sid (s0, false, st)))))
  rw [enrichCore]
  exact ⟨by rw [h5.1, h4.1, h3.1, h2.1, h1.1],
    by rw [h5.2, h4.2, h3.2, h2.2, h1.2]⟩

theorem enrichCore_store (fs : FS) (source : SessionSource) (sid : String)
    (s0 : SessionInfo) (st : Store) :
    (enrichCore fs source sid s0 st).2.2.sessions = st.sessions ∧
    (enrichCore fs source sid s0 st).2.2.loaded = st.loaded := by
  have h1 := enrichStep1_store fs source sid (s0, false, st)
  have h2 := enrichStep2_store fs source sid (enrichStep1 fs source sid (s0, false, st))
  have h3 := enrichStep3_store fs source sid
    (enrichStep2 fs source sid (enrichStep1 fs source sid (s0, false, st)))
  have h4 := enrichStep4_store fs source
    (enrichStep3 fs source sid
      (enrichStep2 fs source sid (enrichStep1 fs source sid (s0, false, st))))
  have h5 := enrichStep5_store
    (enrichStep4 fs source
      (enrichStep3 fs source sid
        (enrichStep2 fs source sid (enrichStep1 fs source sid (s0, false, st)))))
  rw [enrichCore]
  exact ⟨by rw [h5.1, h4.1, h3.1, h2.1, h1.1],
    by rw [h5.2, h4.2, h3.2, h2.2, h1.2]⟩

theorem key_mem_keysAL {β : Type} (l : List (String × β)) (k : String) (v : β)
    (h : lookupAL l k = some v) : k ∈ keysAL l := by
  have := lookupAL_mem l k v h
  simpa [keysAL] using List.mem_map_of_mem Prod.fst this


/-- Behaviour of `enrich_session_for_access` on a loaded, well-formed
store: it preserves well-formedness and the loaded flag, keeps the target
entry present with its identity unchanged, and does not touch the session
map at all when the id is absent. -/
theorem enrich_preserves (fs : FS) (st : Store) (source : SessionSource) (sid : String)
    (hl : st.loaded = true) (hinv : storeInv st) :
    storeInv (enrichSessionForAccess fs st source sid) ∧
    (enrichSessionForAccess fs st source sid).loaded = true ∧
    (∀ s0, lookupAL st.sessions (internalKey source sid) = some s0 →
      ∃ s1, lookupAL (enrichSessionForAccess fs st source sid).sessions
          (internalKey source sid) = some s1 ∧
        s1.session_id = s0.session_id ∧ s1.source = s0.source) ∧
    (lookupAL st.sessions (internalKey source sid) = none →
      (enrichSessionForAccess fs st source sid).sessions = st.sessions) := by
  have hload : load fs st = st := load_of_loaded fs st hl
  cases hs0 : lookupAL st.sessions (internalKey source sid) with
  | none =>
    have heq : enrichSessionForAccess fs st source sid = st := by
      simp only [enrichSessionForAccess, hload, hs0]
    rw [heq]
    exact ⟨hinv, hl, fun s0 h => Option.noConfusion h, fun _ => rfl⟩
  | some s0 =>
    have hcf := enrichCore_fields fs source sid s0 st
    have hcs := enrichCore_store fs source sid s0 st
    have hkey : internalKey source sid = internalKey s0.source s0.session_id :=
      hinv.2 _ (lookupAL_mem st.sessions (internalKey source sid) s0 hs0)
    have hkeymem : internalKey source sid ∈ keysAL st.sessions :=
      key_mem_keysAL st.sessions (internalKey source sid) s0 hs0
    have huhs := updateHistoryCacheSession_sessions
      (enrichCore fs source sid s0 st).2.2 (enrichCore fs source sid s0 st).1
    by_cases hchg : (enrichCore fs source sid s0 st).2.1 = true
    · have hsess : (enrichSessionForAccess fs st source sid).sessions =
          insertAL st.sessions (internalKey source sid)
            (enrichCore fs source sid s0 st).1 := by
        simp only [enrichSessionForAccess, hload, hs0, hchg, if_pos]
        rw [huhs.1, hcs.1]
      have hlod : (enrichSessionForAccess fs st source sid).loaded = true := by
        simp only [enrichSessionForAccess, hload, hs0, hchg, if_pos]
        rw [huhs.2, hcs.2]
        exact hl
      refine ⟨⟨?_, ?_⟩, hlod, ?_, ?_⟩
      · rw [hsess, keysAL_insertAL_of_mem _ _ _ hkeymem]
        exact hinv.1
      · rw [hsess]
        intro e he
        rcases mem_insertAL _ _ _ e he with h | h
        · rw [h]
          show internalKey source sid =
            internalKey (enrichCore fs source sid s0 st).1.source
              (enrichCore fs source sid s0 st).1.session_id
          rw [hkey, hcf.1, hcf.2]
        · exact hinv.2 e h
      · intro s1 hs1
        injection hs1 with hs1
        refine ⟨(enrichCore fs source sid s0 st).1, ?_, ?_, ?_⟩
        · rw [hsess]
          exact lookupAL_insert_self _ _ _
        · rw [hcf.1, hs1]
        · rw [hcf.2, hs1]
      · intro hnone
        exact Option.noConfusion hnone
    · have heq : enrichSessionForAccess fs st source sid =
          (enrichCore fs source sid s0 st).2.2 := by
        simp only [enrichSessionForAccess, hload, hs0]
        rw [if_neg hchg]
      refine ⟨⟨?_, ?_⟩, ?_, ?_, ?_⟩
      · rw [heq, hcs.1]
        exact hinv.1
      · rw [heq, hcs.1]
        exact hinv.2
      · rw [heq, hcs.2]
        exact hl
      · intro s1 hs1
        injection hs1 with hs1
        refine ⟨s0, ?_, by rw [hs1], by rw [hs1]⟩
        rw [heq, hcs.1]
        exact hs0
      · intro hnone
        exact Option.noConfusion hnone

theorem mem_valuesAL {β : Type} (l : List (String × β)) (v : β)
    (h : v ∈ valuesAL l) : ∃ k, (k, v) ∈ l := by
  obtain ⟨e, he, heq⟩ := List.mem_map.mp h
  refine ⟨e.1, ?_⟩
  have hev : (e.1, v) = e := by
    obtain ⟨a, b⟩ := e
    simp only at heq
    rw [heq]
  rw [hev]
  exact he

/-- On a loaded well-formed store whose map holds the id, `get_exact`
returns a session with that identity. -/
theorem getExact_found (fs : FS) (st : Store) (source : SessionSource) (sid : String)
    (hl : st.loaded = true) (hinv : storeInv st) (s0 : SessionInfo)
    (hs0 : lookupAL st.sessions (internalKey source sid) = some s0) :
    ∃ r st2, getExact fs st source sid = (some r, st2) ∧
      r.session_id = s0.session_id := by
  have hp := enrich_preserves fs st source sid hl hinv
  obtain ⟨s1, hs1, hid, hsrc⟩ := hp.2.2.1 s0 hs0
  have hload : load fs st = st := load_of_loaded fs st hl
  simp only [getExact, hload]
  have hs1' : lookupAL
      (saveCacheIfDirty (enrichSessionForAccess fs st source sid)).sessions
      (internalKey source sid) = some s1 := hs1
  simp only [hs1']
  by_cases hm : strTrim s1.model = ""
  · rw [if_pos hm]
    cases hmr : mostRecentModelForSource
        (saveCacheIfDirty (enrichSessionForAccess fs st source sid)) source
        s1.session_id with
    | some m =>
      exact ⟨{ s1 with model := m }, _, rfl, hid⟩
    | none =>
      exact ⟨s1, _, rfl, hid⟩
  · rw [if_neg hm]
    exact ⟨s1, _, rfl, hid⟩

theorem lookup_of_values_mem (st : Store) (hinv : storeInv st) (s : SessionInfo)
    (h : s ∈ valuesAL st.sessions) :
    lookupAL st.sessions (internalKey s.source s.session_id) = some s := by
  obtain ⟨k, hk⟩ := mem_valuesAL st.sessions s h
  have := hinv.2 _ hk
  simp only at this
  rw [← this]
  exact lookupAL_of_mem_nodup st.sessions k s hk hinv.1

/-! ## Claim C4: id resolution in get -/

/-- Claim C4: on a loaded, well-formed store, `get(partial_id)` resolves
unambiguously: exactly one exact id match is returned (exact matches take
priority); two or more exact matches give `None`; with no exact match, a
unique proper-prefix match is returned; zero or several prefix matches
give `None` — in particular `get("abc")` with sessions `abc123` and
`abc456` is `None`. -/
theorem get_resolution (fs : FS) (st : Store) (sid : String)
    (hl : st.loaded = true) (hinv : storeInv st) :
    (∀ s, (valuesAL st.sessions).filter (fun x => x.session_id = sid) = [s] →
      ∃ r st2, getSession fs st sid = (some r, st2) ∧ r.session_id = sid) ∧
    (2 ≤ ((valuesAL st.sessions).filter (fun x => x.session_id = sid)).length →
      (getSession fs st sid).1 = none) ∧
    (∀ s, (valuesAL st.sessions).filter (fun x => x.session_id = sid) = [] →
      (valuesAL st.sessions).filter
          (fun x => x.session_id ≠ sid ∧ strStartsWith x.session_id sid) = [s] →
      ∃ r st2, getSession fs st sid = (some r, st2) ∧ r.session_id = s.session_id ∧
        r.session_id ≠ sid ∧ strStartsWith r.session_id sid = true) ∧
    ((valuesAL st.sessions).filter (fun x => x.session_id = sid) = [] →
      ((valuesAL st.sessions).filter
          (fun x => x.session_id ≠ sid ∧ strStartsWith x.session_id sid)).length ≠ 1 →
      (getSession fs st sid).1 = none) := by
  have hload : load fs st = st := load_of_loaded fs st hl
  refine ⟨?_, ?_, ?_, ?_⟩
  · intro s hx
    have hmem : s ∈ (valuesAL st.sessions).filter (fun x => x.session_id = sid) := by
      rw [hx]
      exact List.mem_cons_self _ _
    have hmem' := List.mem_filter.mp hmem
    have hsid : s.session_id = sid := of_decide_eq_true hmem'.2
    have hlk := lookup_of_values_mem st hinv s hmem'.1
    rw [hsid] at hlk
    obtain ⟨r, st2, heq, hid⟩ := getExact_found fs st s.source sid hl hinv s hlk
    refine ⟨r, st2, ?_, hid.trans hsid⟩
    simp only [getSession, hload, hx]
    rw [hsid]
    exact heq
  · intro h2
    simp only [getSession, hload]
    cases hx : (valuesAL st.sessions).filter (fun x => x.session_id = sid) with
    | nil => rw [hx] at h2; simp at h2
    | cons a t =>
      cases t with
      | nil => rw [hx] at h2; simp at h2
      | cons b t2 => rfl
  · intro s hx1 hx2
    have hmem : s ∈ (valuesAL st.sessions).filter
        (fun x => x.session_id ≠ sid ∧ strStartsWith x.session_id sid) := by
      rw [hx2]
      exact List.mem_cons_self _ _
    have hmem' := List.mem_filter.mp hmem
    have hpred : s.session_id ≠ sid ∧ strStartsWith s.session_id sid :=
      of_decide_eq_true hmem'.2
    have hlk := lookup_of_values_mem st hinv s hmem'.1
    obtain ⟨r, st2, heq, hid⟩ :=
      getExact_found fs st s.source s.session_id hl hinv s hlk
    refine ⟨r, st2, ?_, hid, ?_, ?_⟩
    · simp only [getSession, hload, hx1, hx2]
      exact heq
    · rw [hid]
      exact hpred.1
    · rw [hid]
      exact hpred.2
  · intro hx1 hlen
    simp only [getSession, hload, hx1]
    cases hx2 : (valuesAL st.sessions).filter
        (fun x => x.session_id ≠ sid ∧ strStartsWith x.session_id sid) with
    | nil => rfl
    | cons a t =>
      cases t with
      | nil => rw [hx2] at hlen; simp at hlen
      | cons b t2 => rfl

/-- Claim C4, witness: the claim's own scenario — `get("abc")` against
sessions `abc123` and `abc456` resolves to nothing. -/
theorem get_resolution_witness : (getSession trivFS c4Store "abc").1 = none :=
  (get_resolution trivFS c4Store "abc" rfl ⟨by decide, by decide⟩).2.2.2 (by decide) (by decide)

/-! ## Sorting lemmas for all() -/

theorem insertTsDesc_perm (s : SessionInfo) (l : List SessionInfo) :
    List.Perm (insertTsDesc s l) (s :: l) := by
  induction l with
  | nil => exact List.Perm.refl _
  | cons t ts ih =>
    rw [insertTsDesc]
    by_cases h : t.timestamp ≤ s.timestamp
    · rw [if_pos h]
    · rw [if_neg h]
      exact List.Perm.trans (ih.cons t) (List.Perm.swap s t ts)

theorem sortTsDesc_perm (l : List SessionInfo) : List.Perm (sortTsDesc l) l := by
  induction l with
  | nil => exact List.Perm.refl _
  | cons s ss ih =>
    rw [sortTsDesc]
    exact List.Perm.trans (insertTsDesc_perm _ _) (ih.cons s)

theorem insertTsDesc_pairwise (s : SessionInfo) (l : List SessionInfo)
    (h : List.Pairwise (fun a b => b.timestamp ≤ a.timestamp) l) :
    List.Pairwise (fun a b => b.timestamp ≤ a.timestamp) (insertTsDesc s l) := by
  induction l with
  | nil => simp [insertTsDesc]
  | cons t ts ih =>
    rcases List.pairwise_cons.mp h with ⟨ht, hts⟩
    rw [insertTsDesc]
    by_cases hc : t.timestamp ≤ s.timestamp
    · rw [if_pos hc]
      refine List.pairwise_cons.mpr ⟨?_, h⟩
      intro z hz
      rcases List.mem_cons.mp hz with hz | hz
      · rw [hz]; exact hc
      · exact le_trans (ht z hz) hc
    · rw [if_neg hc]
      refine List.pairwise_cons.mpr ⟨?_, ih hts⟩
      intro z hz
      rcases List.mem_cons.mp ((insertTsDesc_perm s ts).mem_iff.mp hz) with hz | hz
      · rw [hz]
        exact le_of_not_le hc
      · exact ht z hz

theorem sortTsDesc_sorted (l : List SessionInfo) :
    List.Pairwise (fun a b => b.timestamp ≤ a.timestamp) (sortTsDesc l) := by
  induction l with
  | nil => exact List.Pairwise.nil
  | cons s ss ih =>
    rw [sortTsDesc]
    exact insertTsDesc_pairwise s (sortTsDesc ss) ih

/-! ## The search loop -/

/-- Behaviour of the `search` session loop on a loaded, well-formed
store: it appends to the accumulator at most one result per scanned
session (the identities of the appended results form a sublist of the
scanned identities) and never exceeds `max_results` once the accumulator
is below it. -/
theorem searchGo_spec (fs : FS) (pat : String → Bool) (proj : Option String)
    (maxr : Nat) :
    ∀ (ss : List SessionInfo) (acc : List SearchResult) (st : Store),
      st.loaded = true → storeInv st →
      ∃ extra st2, searchGo fs pat proj maxr ss acc st = (acc ++ extra, st2) ∧
        List.Sublist (extra.map (fun r => (r.1.source, r.1.session_id)))
          (ss.map (fun s => (s.source, s.session_id))) ∧
        (acc.length < maxr → (acc ++ extra).length ≤ maxr) := by
  intro ss
  induction ss with
  | nil =>
    intro acc st hl hinv
    refine ⟨[], st, by simp [searchGo], by simp, fun h => by simp; omega⟩
  | cons s rest ih =>
    intro acc st hl hinv
    have hp := enrich_preserves fs st s.source s.session_id hl hinv
    have hinv1 : storeInv (enrichSessionForAccess fs st s.source s.session_id) := hp.1
    have hl1 : (enrichSessionForAccess fs st s.source s.session_id).loaded = true :=
      hp.2.1
    have hs1 : ((lookupAL
          (enrichSessionForAccess fs st s.source s.session_id).sessions
          (internalKey s.source s.session_id)).getD s).source = s.source ∧
        ((lookupAL (enrichSessionForAccess fs st s.source s.session_id).sessions
          (internalKey s.source s.session_id)).getD s).session_id = s.session_id := by
      cases hlk : lookupAL (enrichSessionForAccess fs st s.source s.session_id).sessions
          (internalKey s.source s.session_id) with
      | none => exact ⟨rfl, rfl⟩
      | some x =>
        have hmem := lookupAL_mem _ _ _ hlk
        have hco := hinv1.2 _ hmem
        simp only at hco
        have hij := internalKey_inj _ _ _ _ hco
        simp only [Option.getD_some]
        exact ⟨hij.1.symm, hij.2.symm⟩
    simp only [searchGo]
    set st1 := enrichSessionForAccess fs st s.source s.session_id with hst1
    set s1 := (lookupAL st1.sessions (internalKey s.source s.session_id)).getD s
      with hs1def
    by_cases hrej : projFilterRejects proj s1 = true
    · rw [if_pos hrej]
      obtain ⟨extra, st2, heq, hsub, hlen⟩ := ih acc st1 hl1 hinv1
      exact ⟨extra, st2, heq, hsub.cons _, hlen⟩
    · rw [if_neg hrej]
      split
      · obtain ⟨extra, st2, heq, hsub, hlen⟩ := ih acc st1 hl1 hinv1
        exact ⟨extra, st2, heq, hsub.cons _, hlen⟩
      · next ml hfm =>
        split
        · next hmax =>
          refine ⟨[(s1, ml.1, ml.2)], st1, rfl, ?_, ?_⟩
          · simp only [List.map_cons, List.map_nil]
            rw [hs1.1, hs1.2]
            exact (List.nil_sublist _).cons₂ _
          · intro hlt
            simp only [List.length_append, List.length_cons, List.length_nil]
            omega
        · next hmax =>
          obtain ⟨extra, st2, heq, hsub, hlen⟩ :=
            ih (acc ++ [(s1, ml.1, ml.2)]) st1 hl1 hinv1
          refine ⟨(s1, ml.1, ml.2) :: extra, st2, ?_, ?_, ?_⟩
          · rw [heq]
            simp [List.append_assoc]
          · simp only [List.map_cons]
            rw [hs1.1, hs1.2]
            exact hsub.cons₂ _
          · intro hlt
            have hlt1 : (acc ++ [(s1, ml.1, ml.2)]).length < maxr := by
              simp only [List.length_append, List.length_cons, List.length_nil] at hmax ⊢
              omega
            have h2 := hlen hlt1
            simp only [List.length_append, List.length_cons, List.length_nil] at h2 ⊢
            omega

/-! ## Claim C7 (corrected): the search contract -/

/-- Claim C7, counterexample: with `max_results = 0`, `search` still
returns one result, because the size check runs only after the first push
(main.rs:1662-1666); the claim's "at most max_results entries" fails at
`max_results = 0`. -/
theorem search_max_results_zero_counterexample :
    (search c7FS allMatchRegexes c7Store "x" none 0).1 =
      Except.ok [(c7Session, msgHello, "hello world")] ∧
    ¬((1 : Nat) ≤ 0) := by
  constructor
  · rfl
  · decide

/-- Claim C7 (amended): `search` returns an error exactly when `"(?i)"`
prepended to the query fails to compile; for every valid query it returns
`Ok`, with at most `max_results` entries whenever `max_results ≥ 1` (a
zero budget can still yield the first match), at most one matched line
per message (distinct results come from sessions with distinct
identities), scanning the sessions in newest-first timestamp order. -/
theorem search_contract (fs : FS) (regexes : String → Option (String → Bool))
    (st : Store) (query : String) (proj : Option String) (maxResults : Nat)
    (hl : st.loaded = true) (hinv : storeInv st) :
    (regexes ("(?i)" ++ query) = none →
      search fs regexes st query proj maxResults = (Except.error "invalid regex", st)) ∧
    (∀ pat, regexes ("(?i)" ++ query) = some pat →
      ∃ rs st2, search fs regexes st query proj maxResults = (Except.ok rs, st2) ∧
        (1 ≤ maxResults → rs.length ≤ maxResults) ∧
        List.Pairwise (fun r1 r2 =>
          (r1.1.source, r1.1.session_id) ≠ (r2.1.source, r2.1.session_id)) rs) ∧
    List.Pairwise (fun a b => b.timestamp ≤ a.timestamp)
      (sortTsDesc (valuesAL st.sessions)) := by
  have hload : load fs st = st := load_of_loaded fs st hl
  have hall : allOp fs st = (sortTsDesc (valuesAL st.sessions), st) := by
    simp only [allOp, hload]
  refine ⟨?_, ?_, sortTsDesc_sorted _⟩
  · intro herr
    simp only [search, hload, herr]
  · intro pat hpat
    obtain ⟨extra, st2, heq, hsub, hlen⟩ := searchGo_spec fs pat proj maxResults
      (sortTsDesc (valuesAL st.sessions)) [] st hl hinv
    have hmapeq : keysAL st.sessions =
        (st.sessions.map (fun e => ((e.2.source, e.2.session_id) :
          SessionSource × String))).map (fun q => internalKey q.1 q.2) := by
      rw [keysAL, List.map_map]
      apply List.map_congr_left
      intro e he
      exact hinv.2 e he
    have hnd1 : ((st.sessions.map (fun e => ((e.2.source, e.2.session_id) :
        SessionSource × String))).map (fun q => internalKey q.1 q.2)).Nodup :=
      hmapeq ▸ hinv.1
    have hnd2 : (st.sessions.map (fun e => ((e.2.source, e.2.session_id) :
        SessionSource × String))).Nodup := hnd1.of_map _
    have hvals : (valuesAL st.sessions).map
        (fun s => ((s.source, s.session_id) : SessionSource × String)) =
        st.sessions.map (fun e => ((e.2.source, e.2.session_id) :
          SessionSource × String)) := by
      rw [valuesAL, List.map_map]
      rfl
    have hnd3 : ((valuesAL st.sessions).map
        (fun s => ((s.source, s.session_id) : SessionSource × String))).Nodup := by
      rw [hvals]
      exact hnd2
    have hnd4 : ((sortTsDesc (valuesAL st.sessions)).map
        (fun s => ((s.source, s.session_id) : SessionSource × String))).Nodup :=
      (((sortTsDesc_perm (valuesAL st.sessions)).map _).nodup_iff).mpr hnd3
    have hnd5 : (extra.map (fun r => ((r.1.source, r.1.session_id) :
        SessionSource × String))).Nodup := hnd4.sublist hsub
    refine ⟨extra, saveCacheIfDirty st2, ?_, ?_, ?_⟩
    · simp only [search, hload, hpat, hall]
      rw [heq]
      rfl
    · intro hm
      have := hlen (by simp; omega)
      simpa using this
    · exact List.pairwise_map.mp hnd5

/-- Claim C7, witness: a valid query on the one-session fixture store. -/
theorem search_contract_witness :
    ∃ rs st2, search c7FS allMatchRegexes c7Store "x" none 5 = (Except.ok rs, st2) ∧
      (1 ≤ 5 → rs.length ≤ 5) ∧
      List.Pairwise (fun r1 r2 =>
        (r1.1.source, r1.1.session_id) ≠ (r2.1.source, r2.1.session_id)) rs :=
  (search_contract c7FS allMatchRegexes c7Store "x" none 5 rfl
    ⟨by decide, by decide⟩).2.1 (fun _ => true) rfl
